import Mathlib

/-!
# Conway's Game of Life: the bit-packed board of `board.c`

A shallow embedding of `board.c`.

* C `int` values are integers of `ℤ`; `/` and `%` of C are `Int.tdiv` and
  `Int.tmod` (truncation towards zero).  The product `rows * columns` is
  wrapped to 32 bits (`mul_int`), the other sums and products stay far below
  `INT_MAX` for every board whose cell count fits an `int`.
* The header `board.h` is not part of the source.  `sizeof( board )` and the
  macro `TRUE` are therefore parameters of the functions that use them, and the
  `grid` member is a sequence of bytes that starts right after the header.
* A grid byte is a natural number (its bit pattern), an `int` mask is its
  32-bit two's-complement pattern.
* `random( )` wraps `rand( )` and the clock; the values it returns on
  successive calls are an input of the model (a list, consumed in call order).
* A division by zero has no result: `resize_board_view` returns an `Option`,
  `none` when the new `cell_size` is 0.
-/

namespace Life

/-! ## Machine integers -/

/-- The constant `INT_MAX` of `<limits.h>` for a 32-bit `int`. -/
def INT_MAX : Int := 2147483647

/-- Two's-complement wrap-around of an integer to the 32-bit `int` range. -/
def wrap_int (z : Int) : Int := (z + 2147483648) % 4294967296 - 2147483648

/-- The `int` product `a * b`. -/
def mul_int (a b : Int) : Int := wrap_int (a * b)

/-- The mask `( int ) powf( 2, k )`, for a bit number `k` below 8. -/
def bit_mask (k : Nat) : Nat := 2 ^ k

/-- The 32-bit pattern of `~m` for an `int` mask `m`. -/
def bit_not (m : Nat) : Nat := 4294967295 - m

/-- The value of a C truth value inside an `int` sum. -/
def bool_int (c : Bool) : Int := if c then 1 else 0

/-! ## Data model -/

/-- The struct `board`: the header fields and the bytes of `grid`. -/
structure board where
  rows : Int
  columns : Int
  grid : List Nat
deriving DecidableEq, Repr

/-- The struct `view`, with the fields `board.c` reads and writes. -/
structure view where
  camera_x : Int
  camera_y : Int
  width_in_cells : Int
  height_in_cells : Int
  cell_size : Int
  window_width : Int
  window_height : Int
  movement_speed_in_cells : Int
  min_movement_speed_in_pixels : Int
deriving DecidableEq, Repr

/-! ## Random numbers -/

/-- The function `random_uniform( n )`, reading the values that the successive
`random( )` calls return.  The result is the value returned and the values
left unread; `none` when the list is used up before a value is accepted, and
for `n = 0`, where `INT_MAX % n` is undefined. -/
def random_uniform (n : Int) : List Int → Option (Int × List Int)
  | [] => none
  | rand_val :: rest =>
    if n = 0 then none
    else if rand_val ≥ INT_MAX - Int.tmod INT_MAX n then random_uniform n rest
    else some (Int.tmod rand_val n, rest)

/-! ## Sizing -/

/-- The function `board_byte_size( rows, columns )`. -/
def board_byte_size (sizeof_board rows columns : Int) : Int :=
  let size := sizeof_board + Int.tdiv (mul_int rows columns) 8
  size + (if Int.tmod (mul_int rows columns) 8 ≠ 0 then 1 else 0)

/-- The number of grid bytes behind the header:
`board_byte_size( rows, columns ) - sizeof( board )`, the length that
`calloc`, `malloc`, `memcpy` and `memset` are given for the grid. -/
def grid_size (sizeof_board rows columns : Int) : Nat :=
  (board_byte_size sizeof_board rows columns - sizeof_board).toNat

/-! ## Cell access -/

/-- The function `pos_in_board( x, y, b )`. -/
def pos_in_board (x y : Int) (b : board) : Bool :=
  decide (x ≥ 0) && decide (y ≥ 0) && decide (x < b.columns) && decide (y < b.rows)

/-- The bit number `y*b->columns + x` of a cell. -/
def bit_index (x y : Int) (b : board) : Nat := (y * b.columns + x).toNat

/-- The function `cell_state( x, y, b )` together with the list of the grid
byte indices it reads. -/
def cell_state_traced (x y : Int) (b : board) : Bool × List Nat :=
  if !pos_in_board x y b then (false, [])
  else
    ((b.grid.getD (bit_index x y b / 8) 0 &&& bit_mask (bit_index x y b % 8)) != 0,
      [bit_index x y b / 8])

/-- The function `cell_state( x, y, b )`. -/
def cell_state (x y : Int) (b : board) : Bool := (cell_state_traced x y b).1

/-- The function `change_cell_state( x, y, state, b )`: the board afterwards
and the truth value of the result.  The result is the value of the compound
assignment, that is the grid byte as stored, so it counts as true exactly when
that byte is not zero. -/
def change_cell_state (x y : Int) (state : Bool) (b : board) : board × Bool :=
  if !pos_in_board x y b then (b, false)
  else
    let i := bit_index x y b / 8
    let m := bit_mask (bit_index x y b % 8)
    let byte := b.grid.getD i 0
    let stored := if state then (byte ||| m) % 256 else (byte &&& bit_not m) % 256
    ({ b with grid := b.grid.set i stored }, stored != 0)

/-! ## Game rules -/

/-- The function `living_neighbors( x, y, b )`. -/
def living_neighbors (x y : Int) (b : board) : Int :=
  bool_int (cell_state (x - 1) (y - 1) b) +
  bool_int (cell_state x (y - 1) b) +
  bool_int (cell_state (x + 1) (y - 1) b) +
  bool_int (cell_state (x - 1) y b) +
  bool_int (cell_state (x + 1) y b) +
  bool_int (cell_state (x - 1) (y + 1) b) +
  bool_int (cell_state x (y + 1) b) +
  bool_int (cell_state (x + 1) (y + 1) b)

/-- Modelled from the spec: `updated_cell_state` calls `living_neigbors`, a
spelling for which the source has no definition; section 4.3 of the spec has
the transition rule read `living_neighbors`, so the call is resolved to
`living_neighbors`. -/
def living_neigbors (x y : Int) (b : board) : Int := living_neighbors x y b

/-- The function `updated_cell_state( x, y, b )`. -/
def updated_cell_state (x y : Int) (b : board) : Bool :=
  let living_neighbor_cells := living_neigbors x y b
  decide (living_neighbor_cells = 3) ||
    (cell_state x y b && decide (living_neighbor_cells = 2))

/-! ## Board construction and update -/

/-- The loop of `init_board`, from counter `i` on.  The first argument bounds
the number of iterations; every iteration reads at least one value of
`stream`, so its length is bound enough. -/
def init_board_loop (TRUE : Nat) (rows columns living_cell_count : Int) :
    Nat → Int → List Int → board → Option board
  | 0, i, _, b => if i < living_cell_count then none else some b
  | fuel + 1, i, stream, b =>
    if i < living_cell_count then
      match random_uniform (mul_int rows columns) stream with
      | none => none
      | some (r, rest) =>
        let rand_coord : Nat := (r % 4294967296).toNat
        let byte := b.grid.getD (rand_coord / 8) 0
        if (byte &&& bit_mask (rand_coord % 8)) = TRUE then
          init_board_loop TRUE rows columns living_cell_count fuel i rest b
        else
          let stored := (byte ||| bit_mask (rand_coord % 8)) % 256
          init_board_loop TRUE rows columns living_cell_count fuel (i + 1) rest
            { b with grid := b.grid.set (rand_coord / 8) stored }
    else some b

/-- The function `init_board( rows, columns, living_cell_count )`, reading the
values of the `random( )` calls from `stream`; `none` when `stream` is used up
before the loop ends. -/
def init_board (sizeof_board : Int) (TRUE : Nat) (rows columns living_cell_count : Int)
    (stream : List Int) : Option board :=
  init_board_loop TRUE rows columns living_cell_count stream.length 0 stream
    { rows := rows, columns := columns,
      grid := List.replicate (grid_size sizeof_board rows columns) 0 }

/-- One iteration of the inner loop of `update_board`, for row `i` and column
`j`: the temporary board and the counter afterwards. -/
def update_cell (b : board) (i : Nat) (acc : board × Int) (j : Nat) : board × Int :=
  let r := change_cell_state j i (updated_cell_state j i b) acc.1
  (r.1, if r.2 then acc.2 + 1 else acc.2)

/-- One iteration of the outer loop of `update_board`, for row `i`. -/
def update_row (b : board) (acc : board × Int) (i : Nat) : board × Int :=
  (List.range b.columns.toNat).foldl (update_cell b i) acc

/-- The function `update_board( b )`: the board afterwards and the value
returned.  `tmp` is what the bytes of the grid of the `malloc`ed temporary
board hold before the loops. -/
def update_board (sizeof_board : Int) (tmp : List Nat) (b : board) : board × Int :=
  let temp_board : board := { rows := b.rows, columns := b.columns, grid := tmp }
  let r := (List.range b.rows.toNat).foldl (update_row b) (temp_board, 0)
  let n := grid_size sizeof_board b.rows b.columns
  ({ rows := r.1.rows, columns := r.1.columns,
     grid := r.1.grid.take n ++ b.grid.drop n }, r.2)

/-- The function `kill_all_cells( b )`: `memset` clears the first `grid_size`
bytes of the grid. -/
def kill_all_cells (sizeof_board : Int) (b : board) : board :=
  let n := grid_size sizeof_board b.rows b.columns
  { b with grid := List.replicate (min n b.grid.length) 0 ++ b.grid.drop n }

/-! ## Camera -/

/-- The function `clamp( min, max, num )`. -/
def clamp (min max num : Int) : Int :=
  if num < min then min
  else if num > max then max
  else num

/-- The function `clamp_camera_pos( cam, b )`. -/
def clamp_camera_pos (cam : view) (b : board) : view :=
  let max_camera_x := b.columns - cam.width_in_cells
  let cam1 := { cam with camera_x := clamp 0 max_camera_x cam.camera_x }
  let max_camera_y := b.rows - cam1.height_in_cells
  { cam1 with camera_y := clamp 0 max_camera_y cam1.camera_y }

/-- The function `camera_in_bounds( v, b )`. -/
def camera_in_bounds (v : view) (b : board) : Bool :=
  let x_in_boundaries := decide (v.camera_x ≥ 0) && decide (v.camera_x ≤ b.columns - v.width_in_cells)
  let y_in_boundaries := decide (v.camera_y ≥ 0) && decide (v.camera_y ≤ b.rows - v.height_in_cells)
  x_in_boundaries && y_in_boundaries

/-! ## Specification-side notions -/

/-- The board cells, as pairs `(x, y)`, row by row. -/
def board_cells (b : board) : List (Int × Int) :=
  (List.range b.rows.toNat).flatMap fun i =>
    (List.range b.columns.toNat).map fun j => ((j : Int), (i : Int))

/-- The number of live cells: `cell_state` summed over the whole grid. -/
def live_count (b : board) : Int :=
  ((board_cells b).map fun c => bool_int (cell_state c.1 c.2 b)).sum

/-- The eight offsets of the Moore neighbourhood. -/
def moore_offsets : List (Int × Int) :=
  [(-1, -1), (0, -1), (1, -1), (-1, 0), (1, 0), (-1, 1), (0, 1), (1, 1)]

/-- Bit `n` of a packed grid: bit `n % 8` of byte `n / 8`. -/
def grid_bit (g : List Nat) (n : Nat) : Bool := (g.getD (n / 8) 0).testBit (n % 8)

/-- The bit stored for `(x, y)`, read without any bounds check. -/
def stored_bit (x y : Int) (b : board) : Bool := grid_bit b.grid (bit_index x y b)

/-- The number of live Moore neighbours of `(x, y)` that lie on the board. -/
def moore_count (x y : Int) (b : board) : Nat :=
  (moore_offsets.filter fun d =>
    decide (0 ≤ x + d.1 ∧ x + d.1 < b.columns ∧ 0 ≤ y + d.2 ∧ y + d.2 < b.rows) &&
      stored_bit (x + d.1) (y + d.2) b).length

/-- A board laid out the way `init_board` allocates it: positive dimensions, a
cell count that fits an `int`, and a grid of `grid_size` bytes. -/
def well_formed (sizeof_board : Int) (b : board) : Prop :=
  0 < b.rows ∧ 0 < b.columns ∧ b.rows * b.columns ≤ INT_MAX ∧
    b.grid.length = grid_size sizeof_board b.rows b.columns

instance (sizeof_board : Int) (b : board) : Decidable (well_formed sizeof_board b) := by
  unfold well_formed; infer_instance

/-- The temporary board `t` of `update_board( b )` has the dimensions of `b` and
a grid that holds the byte of every cell. -/
def temp_ok (b t : board) : Prop :=
  t.rows = b.rows ∧ t.columns = b.columns ∧
    ∀ x y, pos_in_board x y b = true → bit_index x y b / 8 < t.grid.length

/-- The 4x4 board with the 2x2 block in the middle and a dead border. -/
def block_board : board := { rows := 4, columns := 4, grid := [96, 6] }

/-- The 3x3 board whose only live cell is the centre. -/
def centre_board : board := { rows := 3, columns := 3, grid := [16, 0] }

/-! ## Zoom and scroll -/

/-- The guard of `resize_board_view`: the zoom is carried out when
`( cell_size > 2 && zoom < 0 ) || ( cell_size < 30 && zoom > 0 )`. -/
def resize_accepted (zoom : Int) (player_view : view) : Bool :=
  (decide (player_view.cell_size > 2) && decide (zoom < 0)) ||
    (decide (player_view.cell_size < 30) && decide (zoom > 0))

/-- The function `resize_board_view( zoom, player_view, world )`: the view
afterwards; `none` when the new `cell_size` is 0, where the three divisions by
`cell_size` are undefined. -/
def resize_board_view (zoom : Int) (player_view : view) (world : board) : Option view :=
  if !resize_accepted zoom player_view then some player_view
  else
    let center_y := player_view.camera_y + Int.tdiv player_view.height_in_cells 2
    let center_x := player_view.camera_x + Int.tdiv player_view.width_in_cells 2
    let cell_size := player_view.cell_size + zoom
    if cell_size = 0 then none
    else
      let height_in_cells := Int.tdiv player_view.window_height cell_size
      let width_in_cells := Int.tdiv player_view.window_width cell_size
      let center_y := if height_in_cells > world.rows then Int.tdiv world.rows 2 else center_y
      let center_x := if width_in_cells > world.columns then Int.tdiv world.columns 2 else center_x
      let camera_x := center_x - Int.tdiv width_in_cells 2
      let camera_y := center_y - Int.tdiv height_in_cells 2
      let speed := Int.tdiv player_view.min_movement_speed_in_pixels cell_size
      let movement_speed_in_cells := if speed ≠ 0 then speed else 1
      some (clamp_camera_pos
        { player_view with
          cell_size := cell_size
          height_in_cells := height_in_cells
          width_in_cells := width_in_cells
          camera_x := camera_x
          camera_y := camera_y
          movement_speed_in_cells := movement_speed_in_cells } world)

/-- The function `move_camera_by( x, y, player_view, game_board, window )`; the
drawable size it asks the window for is not used. -/
def move_camera_by (x y : Int) (player_view : view) (game_board : board) : view :=
  if !camera_in_bounds player_view game_board then player_view
  else
    clamp_camera_pos
      { player_view with
        camera_x := player_view.camera_x + x
        camera_y := player_view.camera_y + y } game_board

/-- The list of the grid byte indices that `change_cell_state( x, y, state, b )`
reads and writes. -/
def change_cell_state_accesses (x y : Int) (b : board) : List Nat :=
  if !pos_in_board x y b then [] else [bit_index x y b / 8]

/-- Successive `update_board` calls, one for each temporary grid of `tmps`. -/
def update_board_times (sizeof_board : Int) (tmps : List (List Nat)) (b : board) : board :=
  tmps.foldl (fun acc tmp => (update_board sizeof_board tmp acc).1) b

/-- The 5x5 board with the glider `(1,0), (2,1), (0,2), (1,2), (2,2)`. -/
def glider_board : board := { rows := 5, columns := 5, grid := [130, 28, 0, 0] }

/-- Successive `resize_board_view` calls, one for each zoom of `zooms`; `none`
as soon as one of them divides by zero. -/
def resize_board_view_times (zooms : List Int) (player_view : view) (world : board) :
    Option view :=
  zooms.foldl (fun acc zoom => acc.bind fun v => resize_board_view zoom v world)
    (some player_view)

/-- The 20x20 board with no live cell. -/
def empty_board_20 : board := { rows := 20, columns := 20, grid := List.replicate 50 0 }

/-- A view of 12x12 cells of 4 pixels in the top left corner of a 48x48 window. -/
def corner_view : view :=
  { camera_x := 0, camera_y := 0, width_in_cells := 12, height_in_cells := 12,
    cell_size := 4, window_width := 48, window_height := 48,
    movement_speed_in_cells := 2, min_movement_speed_in_pixels := 8 }

/-- A view of 16x16 cells of 3 pixels in the top left corner of a 48x48 window. -/
def small_cell_view : view :=
  { camera_x := 0, camera_y := 0, width_in_cells := 16, height_in_cells := 16,
    cell_size := 3, window_width := 48, window_height := 48,
    movement_speed_in_cells := 2, min_movement_speed_in_pixels := 8 }

/-- A view of 10x10 cells of 10 pixels in a 100x100 window, wider and higher
than a 4x4 board. -/
def wide_view : view :=
  { camera_x := 0, camera_y := 0, width_in_cells := 10, height_in_cells := 10,
    cell_size := 10, window_width := 100, window_height := 100,
    movement_speed_in_cells := 1, min_movement_speed_in_pixels := 8 }

/-- The view that `resize_board_view( -1, .. )` computes from `wide_view` on a
4x4 board before it calls `clamp_camera_pos`: 11x11 cells of 9 pixels, centred
on the board with the camera at `(-3, -3)`. -/
def centred_wide_view : view :=
  { camera_x := -3, camera_y := -3, width_in_cells := 11, height_in_cells := 11,
    cell_size := 9, window_width := 100, window_height := 100,
    movement_speed_in_cells := 1, min_movement_speed_in_pixels := 8 }

/-- The glider of `glider_board` one generation later. -/
def glider_gen1 : board := { rows := 5, columns := 5, grid := [160, 24, 1, 0] }

/-- The glider of `glider_board` two generations later. -/
def glider_gen2 : board := { rows := 5, columns := 5, grid := [128, 20, 3, 0] }

/-- The glider of `glider_board` three generations later. -/
def glider_gen3 : board := { rows := 5, columns := 5, grid := [64, 48, 3, 0] }

/-- The glider of `glider_board` four generations later: the cells
`(2,1), (3,2), (1,3), (2,3), (3,3)`. -/
def glider_gen4 : board := { rows := 5, columns := 5, grid := [128, 32, 7, 0] }

/-! ## Bits and bytes -/

theorem and_mask_ne_zero (n k : Nat) : ((n &&& 2 ^ k) != 0) = n.testBit k := by
  rw [Nat.and_two_pow]
  cases h : n.testBit k <;> simp

theorem testBit_set (byte k j : Nat) (hj : j < 8) :
    ((byte ||| 2 ^ k) % 256).testBit j = (byte.testBit j || decide (k = j)) := by
  have : (256 : Nat) = 2 ^ 8 := by norm_num
  rw [this, Nat.testBit_mod_two_pow, Nat.testBit_or, Nat.testBit_two_pow]
  simp [hj]

theorem testBit_clear (byte k j : Nat) (hk : k < 8) (hj : j < 8) :
    ((byte &&& (4294967295 - 2 ^ k)) % 256).testBit j = (byte.testBit j && !decide (k = j)) := by
  have h256 : (256 : Nat) = 2 ^ 8 := by norm_num
  have hlt : 2 ^ k < 2 ^ 32 := Nat.pow_lt_pow_right (by norm_num) (by omega)
  have h32 : (4294967295 : Nat) - 2 ^ k = 2 ^ 32 - (2 ^ k + 1) := by omega
  rw [h256, Nat.testBit_mod_two_pow, Nat.testBit_and, h32, Nat.testBit_two_pow_sub_succ hlt,
    Nat.testBit_two_pow]
  have : j < 32 := by omega
  simp [hj, this]

theorem getD_set_same (g : List Nat) (i v : Nat) (h : i < g.length) :
    (g.set i v).getD i 0 = v := by
  simp [List.getD_eq_getElem?_getD, List.getElem?_set, h]

theorem getD_set_other (g : List Nat) (i j v : Nat) (h : i ≠ j) :
    (g.set i v).getD j 0 = g.getD j 0 := by
  simp [List.getD_eq_getElem?_getD, List.getElem?_set, h]

/-- Writing bit `n` of a grid, the way `change_cell_state` does, changes bit `n` and no other. -/
theorem grid_bit_write (g : List Nat) (n m : Nat) (state : Bool) (h : n / 8 < g.length) :
    grid_bit (g.set (n / 8) (if state then (g.getD (n / 8) 0 ||| bit_mask (n % 8)) % 256
        else (g.getD (n / 8) 0 &&& bit_not (bit_mask (n % 8))) % 256)) m =
      if m = n then state else grid_bit g m := by
  unfold grid_bit bit_not bit_mask
  have hn8 : n % 8 < 8 := Nat.mod_lt _ (by norm_num)
  have hm8 : m % 8 < 8 := Nat.mod_lt _ (by norm_num)
  by_cases hq : n / 8 = m / 8
  · rw [← hq, getD_set_same g _ _ h]
    by_cases hr : n % 8 = m % 8
    · have hmn : m = n := by omega
      cases state <;> simp [testBit_set, testBit_clear, hn8, hm8, hr, hmn]
    · have hmn : m ≠ n := by intro e; exact hr (by rw [e])
      cases state <;> simp [testBit_set, testBit_clear, hn8, hm8, hr, hmn]
  · have hmn : m ≠ n := by intro e; exact hq (by rw [e])
    rw [getD_set_other g _ _ _ hq]
    simp [hmn]

/-! ## Cell access -/

theorem pos_in_board_iff (x y : Int) (b : board) :
    pos_in_board x y b = true ↔ 0 ≤ x ∧ 0 ≤ y ∧ x < b.columns ∧ y < b.rows := by
  simp [pos_in_board, and_assoc]

theorem cell_state_eq (x y : Int) (b : board) :
    cell_state x y b = (pos_in_board x y b && stored_bit x y b) := by
  unfold cell_state cell_state_traced stored_bit grid_bit bit_mask
  cases h : pos_in_board x y b <;> simp [and_mask_ne_zero]

/-- Distinct cells of the board have distinct bit numbers. -/
theorem bit_index_inj (x y x' y' : Int) (b : board)
    (h : pos_in_board x y b = true) (h' : pos_in_board x' y' b = true)
    (e : bit_index x y b = bit_index x' y' b) : x = x' ∧ y = y' := by
  rw [pos_in_board_iff] at h h'
  obtain ⟨hx, hy, hxc, hyr⟩ := h
  obtain ⟨hx', hy', hxc', hyr'⟩ := h'
  unfold bit_index at e
  have hc : 0 ≤ b.columns := by omega
  have h1 : 0 ≤ y * b.columns + x := add_nonneg (mul_nonneg hy hc) hx
  have h2 : 0 ≤ y' * b.columns + x' := add_nonneg (mul_nonneg hy' hc) hx'
  have e' : y * b.columns + x = y' * b.columns + x' := by
    have := congrArg (fun n : Nat => (n : Int)) e
    simpa [Int.toNat_of_nonneg h1, Int.toNat_of_nonneg h2] using this
  have hy : y = y' := by
    rcases lt_trichotomy y y' with hlt | heq | hgt
    · exfalso
      have : (y + 1) * b.columns ≤ y' * b.columns :=
        mul_le_mul_of_nonneg_right (by omega) (by omega)
      nlinarith
    · exact heq
    · exfalso
      have : (y' + 1) * b.columns ≤ y * b.columns :=
        mul_le_mul_of_nonneg_right (by omega) (by omega)
      nlinarith
  subst hy
  exact ⟨by omega, rfl⟩

theorem change_cell_state_rows (x y : Int) (s : Bool) (b : board) :
    (change_cell_state x y s b).1.rows = b.rows := by
  unfold change_cell_state
  split <;> rfl

theorem change_cell_state_columns (x y : Int) (s : Bool) (b : board) :
    (change_cell_state x y s b).1.columns = b.columns := by
  unfold change_cell_state
  split <;> rfl

theorem change_cell_state_length (x y : Int) (s : Bool) (b : board) :
    (change_cell_state x y s b).1.grid.length = b.grid.length := by
  unfold change_cell_state
  split <;> simp

/-- The cell states after a `change_cell_state` on a cell of the board. -/
theorem cell_state_change (x y x' y' : Int) (s : Bool) (b : board)
    (hin : pos_in_board x y b = true) (hlen : bit_index x y b / 8 < b.grid.length) :
    cell_state x' y' (change_cell_state x y s b).1 =
      if x' = x ∧ y' = y then s else cell_state x' y' b := by
  have hpos : ∀ t : board, t.rows = b.rows → t.columns = b.columns →
      pos_in_board x' y' t = pos_in_board x' y' b := by
    intro t hr hc; simp [pos_in_board, hr, hc]
  rw [cell_state_eq, cell_state_eq, hpos _ (change_cell_state_rows ..) (change_cell_state_columns ..)]
  cases hin' : pos_in_board x' y' b
  · have : ¬ (x' = x ∧ y' = y) := by
      rintro ⟨rfl, rfl⟩; rw [hin] at hin'; exact absurd hin' (by simp)
    simp [this]
  · have hidx : bit_index x' y' (change_cell_state x y s b).1 = bit_index x' y' b := by
      simp [bit_index, change_cell_state_columns]
    simp only [stored_bit, hidx, Bool.true_and]
    have hg : (change_cell_state x y s b).1.grid =
        b.grid.set (bit_index x y b / 8)
          (if s then (b.grid.getD (bit_index x y b / 8) 0 ||| bit_mask (bit_index x y b % 8)) % 256
           else (b.grid.getD (bit_index x y b / 8) 0 &&& bit_not (bit_mask (bit_index x y b % 8))) % 256) := by
      simp [change_cell_state, hin]
    rw [hg, grid_bit_write _ _ _ _ hlen]
    by_cases hxy : x' = x ∧ y' = y
    · obtain ⟨rfl, rfl⟩ := hxy; simp
    · have : bit_index x' y' b ≠ bit_index x y b := fun e => hxy (bit_index_inj _ _ _ _ b hin' hin e)
      simp [hxy, this]

/-! ## Sizing -/

theorem wrap_int_eq (z : Int) (h0 : 0 ≤ z) (h1 : z ≤ INT_MAX) : wrap_int z = z := by
  unfold wrap_int
  unfold INT_MAX at h1
  omega

theorem board_byte_size_eq (sizeof_board rows columns : Int) (hr : 0 < rows) (hc : 0 < columns)
    (hfit : rows * columns ≤ INT_MAX) :
    board_byte_size sizeof_board rows columns = sizeof_board + (rows * columns + 7) / 8 := by
  have hpos : 0 < rows * columns := mul_pos hr hc
  unfold board_byte_size mul_int
  rw [wrap_int_eq _ hpos.le hfit]
  simp only [Int.tdiv_eq_ediv hpos.le (by norm_num : (0 : Int) ≤ 8),
    Int.tmod_eq_emod hpos.le (by norm_num : (0 : Int) ≤ 8)]
  split <;> omega

theorem grid_size_eq (sizeof_board rows columns : Int) (hr : 0 < rows) (hc : 0 < columns)
    (hfit : rows * columns ≤ INT_MAX) :
    grid_size sizeof_board rows columns = ((rows * columns + 7) / 8).toNat := by
  unfold grid_size
  rw [board_byte_size_eq _ _ _ hr hc hfit]
  congr 1
  omega

theorem bit_index_lt (x y : Int) (b : board) (h : pos_in_board x y b = true) :
    (bit_index x y b : Int) < b.rows * b.columns ∧ (bit_index x y b : Int) = y * b.columns + x := by
  rw [pos_in_board_iff] at h
  obtain ⟨hx, hy, hxc, hyr⟩ := h
  have hc : 0 ≤ b.columns := by omega
  have h1 : 0 ≤ y * b.columns + x := add_nonneg (mul_nonneg hy hc) hx
  unfold bit_index
  rw [Int.toNat_of_nonneg h1]
  refine ⟨?_, rfl⟩
  have : (y + 1) * b.columns ≤ b.rows * b.columns :=
    mul_le_mul_of_nonneg_right (by omega) hc
  nlinarith

/-- The byte of every cell of the board lies inside the `grid_size` bytes of the grid. -/
theorem byte_index_lt_grid_size (sizeof_board : Int) (x y : Int) (b : board)
    (hfit : b.rows * b.columns ≤ INT_MAX) (h : pos_in_board x y b = true) :
    bit_index x y b / 8 < grid_size sizeof_board b.rows b.columns := by
  have hb := (bit_index_lt x y b h).1
  have hp := (pos_in_board_iff x y b).1 h
  rw [grid_size_eq _ _ _ (by omega) (by omega) hfit]
  omega

/-! ## The loops of `update_board` -/

theorem temp_ok_change (b t : board) (x y : Int) (s : Bool) (h : temp_ok b t) :
    temp_ok b (change_cell_state x y s t).1 := by
  obtain ⟨hr, hc, hcov⟩ := h
  refine ⟨?_, ?_, ?_⟩
  · rw [change_cell_state_rows, hr]
  · rw [change_cell_state_columns, hc]
  · intro x' y' h'
    rw [change_cell_state_length]
    exact hcov x' y' h'

theorem pos_in_board_congr (x y : Int) (b t : board) (hr : t.rows = b.rows)
    (hc : t.columns = b.columns) : pos_in_board x y t = pos_in_board x y b := by
  simp [pos_in_board, hr, hc]

theorem bit_index_congr (x y : Int) (b t : board) (hc : t.columns = b.columns) :
    bit_index x y t = bit_index x y b := by
  simp [bit_index, hc]

/-- The inner loop over the columns `l` of row `i` writes the updated state of
the cells `(j, i)`, `j ∈ l`, and leaves the other cells of the temporary board alone. -/
theorem update_row_cells (b : board) (i : Nat) (hi : (i : Int) < b.rows) (l : List Nat)
    (hl : ∀ j ∈ l, (j : Int) < b.columns) (acc : board × Int) (hacc : temp_ok b acc.1) :
    temp_ok b (l.foldl (update_cell b i) acc).1 ∧
    ∀ x y, cell_state x y (l.foldl (update_cell b i) acc).1 =
      if y = i ∧ ∃ j ∈ l, x = (j : Int) then updated_cell_state x y b
      else cell_state x y acc.1 := by
  induction l generalizing acc with
  | nil => simp [hacc]
  | cons j l ih =>
    have hj : (j : Int) < b.columns := hl j (List.mem_cons_self _ _)
    have hl' : ∀ k ∈ l, (k : Int) < b.columns := fun k hk => hl k (List.mem_cons_of_mem _ hk)
    have hstep : temp_ok b (update_cell b i acc j).1 := temp_ok_change b acc.1 _ _ _ hacc
    obtain ⟨hok, hcells⟩ := ih hl' (update_cell b i acc j) hstep
    rw [List.foldl_cons]
    refine ⟨hok, ?_⟩
    intro x y
    rw [hcells x y]
    have hin : pos_in_board (j : Int) (i : Int) acc.1 = true := by
      rw [pos_in_board_congr _ _ b acc.1 hacc.1 hacc.2.1, pos_in_board_iff]
      exact ⟨by omega, by omega, hj, hi⟩
    have hlen : bit_index (j : Int) (i : Int) acc.1 / 8 < acc.1.grid.length := by
      rw [bit_index_congr _ _ b acc.1 hacc.2.1]
      apply hacc.2.2
      rw [← pos_in_board_congr _ _ b acc.1 hacc.1 hacc.2.1]; exact hin
    have hone : cell_state x y (update_cell b i acc j).1 =
        if x = (j : Int) ∧ y = (i : Int) then updated_cell_state (j : Int) (i : Int) b
        else cell_state x y acc.1 := by
      unfold update_cell
      exact cell_state_change _ _ _ _ _ _ hin hlen
    rw [hone]
    have key : (y = (i : Int) ∧ ∃ k ∈ j :: l, x = (k : Int)) ↔
        (y = (i : Int) ∧ ∃ k ∈ l, x = (k : Int)) ∨ (x = (j : Int) ∧ y = (i : Int)) := by
      simp only [List.mem_cons, exists_eq_or_imp]
      constructor
      · rintro ⟨ha, hj | hp⟩
        · exact Or.inr ⟨hj, ha⟩
        · exact Or.inl ⟨ha, hp⟩
      · rintro (⟨ha, hp⟩ | ⟨hj, ha⟩)
        · exact ⟨ha, Or.inr hp⟩
        · exact ⟨ha, Or.inl hj⟩
    by_cases h1 : y = (i : Int) ∧ ∃ k ∈ l, x = (k : Int)
    · rw [if_pos h1, if_pos (key.2 (Or.inl h1))]
    · rw [if_neg h1]
      by_cases h2 : x = (j : Int) ∧ y = (i : Int)
      · rw [if_pos h2, if_pos (key.2 (Or.inr h2)), h2.1, h2.2]
      · rw [if_neg h2, if_neg (fun h => (key.1 h).elim h1 h2)]

/-- The outer loop over the rows `l` writes the updated state of every cell of
these rows and leaves the other cells of the temporary board alone. -/
theorem update_rows_cells (b : board) (l : List Nat) (hl : ∀ i ∈ l, (i : Int) < b.rows)
    (acc : board × Int) (hacc : temp_ok b acc.1) :
    temp_ok b (l.foldl (update_row b) acc).1 ∧
    ∀ x y, cell_state x y (l.foldl (update_row b) acc).1 =
      if (∃ i ∈ l, y = (i : Int)) ∧ 0 ≤ x ∧ x < b.columns then updated_cell_state x y b
      else cell_state x y acc.1 := by
  induction l generalizing acc with
  | nil => simp [hacc]
  | cons i l ih =>
    have hi : (i : Int) < b.rows := hl i (List.mem_cons_self _ _)
    have hl' : ∀ k ∈ l, (k : Int) < b.rows := fun k hk => hl k (List.mem_cons_of_mem _ hk)
    have hcols : ∀ j ∈ List.range b.columns.toNat, (j : Int) < b.columns := by
      intro j hj
      have := List.mem_range.1 hj
      omega
    obtain ⟨hok1, hcells1⟩ := update_row_cells b i hi _ hcols acc hacc
    obtain ⟨hok, hcells⟩ := ih hl' (update_row b acc i) hok1
    rw [List.foldl_cons]
    refine ⟨hok, ?_⟩
    intro x y
    rw [hcells x y]
    have hone : cell_state x y (update_row b acc i).1 =
        if y = (i : Int) ∧ 0 ≤ x ∧ x < b.columns then updated_cell_state x y b
        else cell_state x y acc.1 := by
      unfold update_row
      rw [hcells1 x y]
      have : (∃ j ∈ List.range b.columns.toNat, x = (j : Int)) ↔ 0 ≤ x ∧ x < b.columns := by
        constructor
        · rintro ⟨j, hj, rfl⟩
          have := List.mem_range.1 hj
          omega
        · rintro ⟨h0, h1⟩
          exact ⟨x.toNat, List.mem_range.2 (by omega), by omega⟩
      simp only [this]
    rw [hone]
    have key : ((∃ k ∈ i :: l, y = (k : Int)) ∧ 0 ≤ x ∧ x < b.columns) ↔
        ((∃ k ∈ l, y = (k : Int)) ∧ 0 ≤ x ∧ x < b.columns) ∨
          (y = (i : Int) ∧ 0 ≤ x ∧ x < b.columns) := by
      simp only [List.mem_cons, exists_eq_or_imp]
      constructor
      · rintro ⟨hi | hp, hx⟩
        · exact Or.inr ⟨hi, hx⟩
        · exact Or.inl ⟨hp, hx⟩
      · rintro (⟨hp, hx⟩ | ⟨hi, hx⟩)
        · exact ⟨Or.inr hp, hx⟩
        · exact ⟨Or.inl hi, hx⟩
    by_cases h1 : (∃ k ∈ l, y = (k : Int)) ∧ 0 ≤ x ∧ x < b.columns
    · rw [if_pos h1, if_pos (key.2 (Or.inl h1))]
    · rw [if_neg h1]
      by_cases h2 : y = (i : Int) ∧ 0 ≤ x ∧ x < b.columns
      · rw [if_pos h2, if_pos (key.2 (Or.inr h2))]
      · rw [if_neg h2, if_neg (fun h => (key.1 h).elim h1 h2)]

theorem getD_take_append (g rest : List Nat) (n i : Nat) (hi : i < n) (hg : i < g.length) :
    (g.take n ++ rest).getD i 0 = g.getD i 0 := by
  have h1 : i < (g.take n).length := by simp [List.length_take]; omega
  simp [List.getD_eq_getElem?_getD, List.getElem?_append_left h1, List.getElem?_take, hi]

/-- Two boards of the same dimensions agree on a cell when they agree on its byte. -/
theorem cell_state_congr (x y : Int) (t u : board) (hr : t.rows = u.rows)
    (hc : t.columns = u.columns)
    (hg : t.grid.getD (bit_index x y u / 8) 0 = u.grid.getD (bit_index x y u / 8) 0) :
    cell_state x y t = cell_state x y u := by
  rw [cell_state_eq, cell_state_eq, pos_in_board_congr x y u t hr hc]
  simp only [stored_bit, grid_bit, bit_index_congr x y u t hc, hg]

/-! ## Claims -/

/-- C1: for a board with positive dimensions (whose cell count fits an `int`)
and any contents of the `malloc`ed temporary grid, `update_board` keeps `rows`
and `columns`, and the state of every cell `(x, y)` of the board afterwards is
`updated_cell_state( x, y )` of the board as it was before the call. -/
theorem update_board_cells (sizeof_board : Int) (tmp : List Nat) (b : board)
    (hr : 0 < b.rows) (_hc : 0 < b.columns) (hfit : b.rows * b.columns ≤ INT_MAX)
    (htmp : tmp.length = grid_size sizeof_board b.rows b.columns) :
    (update_board sizeof_board tmp b).1.rows = b.rows ∧
    (update_board sizeof_board tmp b).1.columns = b.columns ∧
    ∀ x y : Int, 0 ≤ x → x < b.columns → 0 ≤ y → y < b.rows →
      cell_state x y (update_board sizeof_board tmp b).1 = updated_cell_state x y b := by
  have h0 : temp_ok b { rows := b.rows, columns := b.columns, grid := tmp } := by
    refine ⟨rfl, rfl, ?_⟩
    intro x y h
    show bit_index x y b / 8 < tmp.length
    rw [htmp]
    exact byte_index_lt_grid_size sizeof_board x y b hfit h
  have hrows : ∀ i ∈ List.range b.rows.toNat, (i : Int) < b.rows := by
    intro i hi
    have := List.mem_range.1 hi
    omega
  obtain ⟨hok, hcells⟩ := update_rows_cells b _ hrows
    ({ rows := b.rows, columns := b.columns, grid := tmp }, 0) h0
  obtain ⟨hR, hC, hcov⟩ := hok
  refine ⟨hR, hC, ?_⟩
  intro x y hx0 hx1 hy0 hy1
  have hin : pos_in_board x y b = true := (pos_in_board_iff x y b).2 ⟨hx0, hy0, hx1, hy1⟩
  have hy : ∃ i ∈ List.range b.rows.toNat, y = (i : Int) :=
    ⟨y.toNat, List.mem_range.2 (by omega), by omega⟩
  have hfin := hcells x y
  rw [if_pos ⟨hy, hx0, hx1⟩] at hfin
  rw [← hfin]
  apply cell_state_congr
  · exact rfl
  · exact rfl
  · exact getD_take_append _ _ _ _
      (by rw [bit_index_congr x y b _ hC]
          exact byte_index_lt_grid_size sizeof_board x y b hfit hin)
      (by rw [bit_index_congr x y b _ hC]
          exact hcov x y hin)

theorem update_board_cells_witness :
    (update_board 8 [255, 255] block_board).1.rows = block_board.rows ∧
    (update_board 8 [255, 255] block_board).1.columns = block_board.columns ∧
    ∀ x y : Int, 0 ≤ x → x < block_board.columns → 0 ≤ y → y < block_board.rows →
      cell_state x y (update_board 8 [255, 255] block_board).1 =
        updated_cell_state x y block_board :=
  update_board_cells 8 [255, 255] block_board (by decide) (by decide) (by decide) (by decide)

set_option maxRecDepth 1000000 in
/-- C2: the value `update_board` returns is not the number of live cells of the
new generation.  On the 4x4 board with the 2x2 block and a zeroed temporary
grid it returns 10 while 4 cells live; on the 3x3 board with the lone centre
cell and a temporary grid of `0xFF` bytes it returns 8 while no cell lives. -/
theorem update_board_count_diverges :
    (update_board 8 [0, 0] block_board).2 = 10 ∧
    live_count (update_board 8 [0, 0] block_board).1 = 4 ∧
    (update_board 8 [255, 255] centre_board).2 = 8 ∧
    live_count (update_board 8 [255, 255] centre_board).1 = 0 := by
  decide

theorem bool_int_cell_state (x y : Int) (b : board) :
    bool_int (cell_state x y b) =
      if (decide (0 ≤ x ∧ x < b.columns ∧ 0 ≤ y ∧ y < b.rows) && stored_bit x y b) = true
      then 1 else 0 := by
  rw [cell_state_eq]
  have : pos_in_board x y b = decide (0 ≤ x ∧ x < b.columns ∧ 0 ≤ y ∧ y < b.rows) := by
    rw [Bool.eq_iff_iff, pos_in_board_iff]
    simp only [decide_eq_true_eq]
    tauto
  rw [this]
  rfl

theorem sum_cell_state_offsets (x y : Int) (b : board) (l : List (Int × Int)) :
    (l.map fun d => bool_int (cell_state (x + d.1) (y + d.2) b)).sum =
      ((l.filter fun d =>
        decide (0 ≤ x + d.1 ∧ x + d.1 < b.columns ∧ 0 ≤ y + d.2 ∧ y + d.2 < b.rows) &&
          stored_bit (x + d.1) (y + d.2) b).length : Int) := by
  induction l with
  | nil => simp
  | cons d l ih =>
    rw [List.map_cons, List.sum_cons, ih, bool_int_cell_state, List.filter_cons]
    split
    · simp; omega
    · simp

theorem living_neighbors_eq (x y : Int) (b : board) :
    living_neighbors x y b = (moore_count x y b : Int) := by
  unfold moore_count
  rw [← sum_cell_state_offsets]
  simp only [moore_offsets, List.map_cons, List.map_nil, List.sum_cons, List.sum_nil,
    living_neighbors, Int.add_neg_one, add_zero, Int.reduceNeg]
  ring

theorem moore_count_le (x y : Int) (b : board) : moore_count x y b ≤ 8 := by
  unfold moore_count
  exact (List.length_filter_le _ _).trans (by simp [moore_offsets])

/-- C3: `living_neighbors( x, y, b )` is the number `N` of live cells among the
Moore neighbours of `(x, y)` that lie on the board (a neighbour off the board
counts 0, whatever bit its index would select), `0 ≤ N ≤ 8`, and
`updated_cell_state( x, y, b )` is true iff `N = 3`, or `N = 2` and the cell
`(x, y)` is alive. -/
theorem updated_cell_state_rule (x y : Int) (b : board) :
    living_neighbors x y b = (moore_count x y b : Int) ∧
    0 ≤ living_neighbors x y b ∧ living_neighbors x y b ≤ 8 ∧
    (updated_cell_state x y b = true ↔
      moore_count x y b = 3 ∨ (moore_count x y b = 2 ∧ cell_state x y b = true)) := by
  have h := living_neighbors_eq x y b
  have hle := moore_count_le x y b
  refine ⟨h, by omega, by omega, ?_⟩
  unfold updated_cell_state living_neigbors
  rw [h]
  simp only [Bool.or_eq_true, Bool.and_eq_true, decide_eq_true_eq]
  constructor
  · rintro (h3 | ⟨hc, h2⟩)
    · exact Or.inl (by exact_mod_cast h3)
    · exact Or.inr ⟨by exact_mod_cast h2, hc⟩
  · rintro (h3 | ⟨h2, hc⟩)
    · exact Or.inl (by exact_mod_cast h3)
    · exact Or.inr ⟨hc, by exact_mod_cast h2⟩

/-- C4: for a position off the board (`x < 0`, `y < 0`, `x >= columns` or
`y >= rows`) `cell_state` returns false and reads no grid byte. -/
theorem cell_state_off_board (x y : Int) (b : board)
    (h : x < 0 ∨ y < 0 ∨ x ≥ b.columns ∨ y ≥ b.rows) :
    cell_state x y b = false ∧ (cell_state_traced x y b).2 = [] := by
  have hp : pos_in_board x y b = false := by
    rw [← Bool.not_eq_true, pos_in_board_iff]
    omega
  simp [cell_state, cell_state_traced, hp]

theorem cell_state_off_board_witness :
    cell_state 4 1 block_board = false ∧ (cell_state_traced 4 1 block_board).2 = [] :=
  cell_state_off_board 4 1 block_board (by decide)

set_option maxRecDepth 100000 in
/-- C5: `init_board` does not always place `living_cell_count` live cells.  For
a 1x2 board and two cells to place, with `TRUE` being 1 and `random( )`
returning 1 twice (so `random_uniform( 2 )` returns 1 twice), the second draw
hits the live cell `(1, 0)`, is not retried, and the board returned has one
live cell. -/
theorem init_board_duplicate_draw :
    random_uniform 2 [1, 1] = some (1, [1]) ∧
    random_uniform 2 [1] = some (1, []) ∧
    init_board 8 1 1 2 2 [1, 1] = some { rows := 1, columns := 2, grid := [2] } ∧
    live_count { rows := 1, columns := 2, grid := [2] } = 1 := by
  decide

/-- C6: on a well-formed board, `change_cell_state( x, y, s, b )` for a cell of
the board makes `cell_state( x, y )` equal to `s`, keeps the state of every
other cell of the board and keeps `rows` and `columns`; for a position off the
board it leaves the whole board as it was. -/
theorem change_cell_state_frame (sizeof_board : Int) (b : board) (x y : Int) (s : Bool)
    (hb : well_formed sizeof_board b) :
    (pos_in_board x y b = true →
      cell_state x y (change_cell_state x y s b).1 = s ∧
      (∀ x' y' : Int, pos_in_board x' y' b = true → (x', y') ≠ (x, y) →
        cell_state x' y' (change_cell_state x y s b).1 = cell_state x' y' b) ∧
      (change_cell_state x y s b).1.rows = b.rows ∧
      (change_cell_state x y s b).1.columns = b.columns) ∧
    (pos_in_board x y b = false → (change_cell_state x y s b).1 = b) := by
  obtain ⟨_, _, hfit, hlen⟩ := hb
  constructor
  · intro hin
    have hl : bit_index x y b / 8 < b.grid.length := by
      rw [hlen]; exact byte_index_lt_grid_size sizeof_board x y b hfit hin
    refine ⟨?_, ?_, change_cell_state_rows .., change_cell_state_columns ..⟩
    · rw [cell_state_change x y x y s b hin hl]; simp
    · intro x' y' _ hne
      rw [cell_state_change x y x' y' s b hin hl]
      have : ¬ (x' = x ∧ y' = y) := by
        rintro ⟨rfl, rfl⟩; exact hne rfl
      rw [if_neg this]
  · intro hout
    simp [change_cell_state, hout]

theorem change_cell_state_frame_witness :
    (pos_in_board 0 0 block_board = true →
      cell_state 0 0 (change_cell_state 0 0 true block_board).1 = true ∧
      (∀ x' y' : Int, pos_in_board x' y' block_board = true → (x', y') ≠ (0, 0) →
        cell_state x' y' (change_cell_state 0 0 true block_board).1 =
          cell_state x' y' block_board) ∧
      (change_cell_state 0 0 true block_board).1.rows = block_board.rows ∧
      (change_cell_state 0 0 true block_board).1.columns = block_board.columns) ∧
    (pos_in_board 0 0 block_board = false →
      (change_cell_state 0 0 true block_board).1 = block_board) :=
  change_cell_state_frame 8 block_board 0 0 true (by decide)

/-- C7: the result of `change_cell_state` is not the state written.  Clearing
the cell `(0, 0)` of a 1x2 board whose cell `(1, 0)` is alive writes a dead cell
(the call is on the board and `state` is false), yet the result is true: the
byte stored, `0x02`, is not zero. -/
theorem change_cell_state_result_diverges :
    pos_in_board 0 0 { rows := 1, columns := 2, grid := [2] } = true ∧
    change_cell_state 0 0 false { rows := 1, columns := 2, grid := [2] } =
      ({ rows := 1, columns := 2, grid := [2] }, true) ∧
    cell_state 0 0 (change_cell_state 0 0 false { rows := 1, columns := 2, grid := [2] }).1 =
      false := by
  decide

/-- Clearing the first `n` bytes of a grid a second time changes nothing. -/
theorem memset_twice (n : Nat) (g : List Nat) :
    List.replicate (min n (List.replicate (min n g.length) 0 ++ g.drop n).length) 0 ++
        (List.replicate (min n g.length) 0 ++ g.drop n).drop n =
      List.replicate (min n g.length) 0 ++ g.drop n := by
  have hlen : (List.replicate (min n g.length) 0 ++ g.drop n).length = g.length := by
    simp only [List.length_append, List.length_replicate, List.length_drop]
    omega
  rw [hlen]
  congr 1
  by_cases hl : n ≤ g.length
  · rw [min_eq_left hl, List.drop_append_of_le_length (by simp)]
    simp
  · have h0 : g.drop n = [] := List.drop_eq_nil_of_le (by omega)
    rw [h0, List.append_nil]
    exact List.drop_eq_nil_of_le (by simp)

/-- C8: on a board whose cell count fits an `int`, after `kill_all_cells`
`cell_state( x, y )` is false for every `(x, y)`, `rows` and `columns` are
unchanged, and a second `kill_all_cells` returns the board of the first. -/
theorem kill_all_cells_clears (sizeof_board : Int) (b : board)
    (hfit : b.rows * b.columns ≤ INT_MAX) :
    (∀ x y : Int, cell_state x y (kill_all_cells sizeof_board b) = false) ∧
    (kill_all_cells sizeof_board b).rows = b.rows ∧
    (kill_all_cells sizeof_board b).columns = b.columns ∧
    kill_all_cells sizeof_board (kill_all_cells sizeof_board b) =
      kill_all_cells sizeof_board b := by
  refine ⟨?_, rfl, rfl, ?_⟩
  · intro x y
    rw [cell_state_eq]
    cases hin : pos_in_board x y (kill_all_cells sizeof_board b)
    · rfl
    · have hin' : pos_in_board x y b = true := hin
      have hlt := byte_index_lt_grid_size sizeof_board x y b hfit hin'
      have hidx : bit_index x y (kill_all_cells sizeof_board b) = bit_index x y b := rfl
      simp only [stored_bit, grid_bit, hidx, Bool.true_and]
      have hz : (kill_all_cells sizeof_board b).grid.getD (bit_index x y b / 8) 0 = 0 := by
        unfold kill_all_cells
        simp only [List.getD_eq_getElem?_getD]
        by_cases hl : bit_index x y b / 8 < b.grid.length
        · rw [List.getElem?_append_left (by simp; omega)]
          simp [List.getElem?_replicate, hlt, hl]
        · have : b.grid.drop (grid_size sizeof_board b.rows b.columns) = [] := by
            apply List.drop_eq_nil_of_le; omega
          rw [this, List.append_nil, List.getElem?_replicate]
          split <;> simp
      rw [hz]
      simp
  · unfold kill_all_cells
    simp only [memset_twice]

theorem kill_all_cells_clears_witness :
    (∀ x y : Int, cell_state x y (kill_all_cells 8 block_board) = false) ∧
    (kill_all_cells 8 block_board).rows = block_board.rows ∧
    (kill_all_cells 8 block_board).columns = block_board.columns ∧
    kill_all_cells 8 (kill_all_cells 8 block_board) = kill_all_cells 8 block_board :=
  kill_all_cells_clears 8 block_board (by decide)

/-- C9: for positive `rows` and `columns` whose product fits an `int`,
`board_byte_size( rows, columns )` is `sizeof( board )` plus the ceiling of
`rows*columns / 8`: the quotient, and one byte more exactly when `rows*columns`
is not a multiple of 8. -/
theorem board_byte_size_ceil (sizeof_board rows columns : Int) (hr : 0 < rows)
    (hc : 0 < columns) (hfit : rows * columns ≤ INT_MAX) :
    board_byte_size sizeof_board rows columns =
      sizeof_board + ⌈((rows * columns : Int) : ℚ) / 8⌉ ∧
    board_byte_size sizeof_board rows columns =
      sizeof_board + rows * columns / 8 + (if 8 ∣ rows * columns then 0 else 1) := by
  have h := board_byte_size_eq sizeof_board rows columns hr hc hfit
  constructor
  · rw [h]
    congr 1
    symm
    rw [Int.ceil_eq_iff]
    have h8 : (0 : ℚ) < 8 := by norm_num
    constructor
    · rw [lt_div_iff₀ h8]
      have : ((rows * columns + 7) / 8 - 1) * 8 < rows * columns := by omega
      exact_mod_cast this
    · rw [div_le_iff₀ h8]
      have : rows * columns ≤ (rows * columns + 7) / 8 * 8 := by omega
      exact_mod_cast this
  · rw [h]
    split <;> omega

theorem board_byte_size_ceil_witness :
    board_byte_size 8 3 3 = 8 + ⌈(((3 : Int) * 3 : Int) : ℚ) / 8⌉ ∧
    board_byte_size 8 3 3 = 8 + (3 : Int) * 3 / 8 + (if (8 : Int) ∣ 3 * 3 then 0 else 1) :=
  board_byte_size_ceil 8 3 3 (by decide) (by decide) (by decide)

/-- Every residue has the same number of preimages below a multiple of the modulus. -/
theorem card_residue (m L r : Nat) (hm : 0 < m) (hL : L % m = 0) (hr : r < m) :
    ((Finset.range L).filter fun v => v % m = r).card = L / m := by
  have hcount := Nat.count_modEq_card L hm r
  rw [hL, if_neg (Nat.not_lt_zero _), add_zero, Nat.count_eq_card_filter_range] at hcount
  rw [← hcount]
  congr 1
  apply Finset.filter_congr
  intro v _
  simp [Nat.ModEq, Nat.mod_eq_of_lt hr]

/-- The value `random_uniform` returns: the first value of the stream that the
loop condition lets through, reduced modulo `n`. -/
theorem random_uniform_first (n : Int) (hn : n ≠ 0) (pre : List Int) (v : Int)
    (post : List Int) (hpre : ∀ u ∈ pre, u ≥ INT_MAX - Int.tmod INT_MAX n)
    (hv : v < INT_MAX - Int.tmod INT_MAX n) :
    random_uniform n (pre ++ v :: post) = some (Int.tmod v n, post) := by
  induction pre with
  | nil => simp [random_uniform, hn, not_le.2 hv]
  | cons u pre ih =>
    have hu := hpre u (List.mem_cons_self _ _)
    rw [List.cons_append, random_uniform, if_neg hn, if_pos hu]
    exact ih fun w hw => hpre w (List.mem_cons_of_mem _ hw)

theorem random_uniform_some (n : Int) (stream : List Int) (r : Int) (rest : List Int)
    (h : random_uniform n stream = some (r, rest)) :
    ∃ v ∈ stream, v < INT_MAX - Int.tmod INT_MAX n ∧ r = Int.tmod v n := by
  induction stream with
  | nil => simp [random_uniform] at h
  | cons u stream ih =>
    rw [random_uniform] at h
    split at h
    · simp at h
    · split at h
      · obtain ⟨v, hv, hlt, e⟩ := ih h
        exact ⟨v, List.mem_cons_of_mem _ hv, hlt, e⟩
      · simp only [Option.some.injEq, Prod.mk.injEq] at h
        exact ⟨u, List.mem_cons_self _ _, by omega, h.1.symm⟩

/-- C10: for `0 < n <= INT_MAX` and non-negative values of `random( )`,
`random_uniform( n )` returns the first value below
`INT_MAX - INT_MAX % n`, reduced modulo `n` (so it returns as soon as such a
value is drawn), every value it returns lies in `[0, n)`, and among the
accepted values `0 <= v < INT_MAX - INT_MAX % n` every residue `r` in `[0, n)`
has the same number of preimages under `v % n`, `(INT_MAX - INT_MAX % n) / n`,
which is at least 1. -/
theorem random_uniform_unbiased (n : Int) (hn0 : 0 < n) (hn1 : n ≤ INT_MAX)
    (stream : List Int) (hs : ∀ v ∈ stream, 0 ≤ v) :
    (∀ r rest, random_uniform n stream = some (r, rest) → 0 ≤ r ∧ r < n) ∧
    (∀ pre v post, stream = pre ++ v :: post →
      (∀ u ∈ pre, u ≥ INT_MAX - Int.tmod INT_MAX n) → v < INT_MAX - Int.tmod INT_MAX n →
      random_uniform n stream = some (Int.tmod v n, post)) ∧
    (∀ r : Nat, (r : Int) < n →
      ((Finset.range (INT_MAX - Int.tmod INT_MAX n).toNat).filter
        fun v : Nat => Int.tmod (v : Int) n = (r : Int)).card =
        ((INT_MAX - Int.tmod INT_MAX n) / n).toNat) ∧
    0 < (INT_MAX - Int.tmod INT_MAX n) / n := by
  have hmax : Int.tmod INT_MAX n = INT_MAX % n :=
    Int.tmod_eq_emod (by unfold INT_MAX; norm_num) hn0.le
  refine ⟨?_, ?_, ?_, ?_⟩
  · intro r rest h
    obtain ⟨v, hv, _, e⟩ := random_uniform_some n stream r rest h
    have hv0 := hs v hv
    rw [e, Int.tmod_eq_emod hv0 hn0.le]
    exact ⟨Int.emod_nonneg _ (by omega), Int.emod_lt_of_pos _ hn0⟩
  · intro pre v post e hpre hv
    rw [e]
    exact random_uniform_first n (by omega) pre v post hpre hv
  · intro r hr
    obtain ⟨m, rfl⟩ := Int.eq_ofNat_of_zero_le hn0.le
    have hm : 0 < m := by exact_mod_cast hn0
    rw [hmax]
    have hI : INT_MAX = ((2147483647 : Nat) : Int) := rfl
    have hcast : INT_MAX - INT_MAX % (m : Int) = ((2147483647 - 2147483647 % m : Nat) : Int) := by
      rw [hI, ← Int.natCast_mod, ← Int.ofNat_sub (Nat.mod_le _ _)]
    have hL : (INT_MAX - INT_MAX % (m : Int)).toNat = 2147483647 - 2147483647 % m := by
      rw [hcast, Int.toNat_natCast]
    have hq : ((INT_MAX - INT_MAX % (m : Int)) / (m : Int)).toNat =
        (2147483647 - 2147483647 % m) / m := by
      rw [hcast, ← Int.natCast_div, Int.toNat_natCast]
    rw [hL, hq, ← card_residue m _ r hm (Nat.sub_mod_eq_zero_of_mod_eq (by simp))
      (by exact_mod_cast hr)]
    congr 1
    apply Finset.filter_congr
    intro v _
    rw [Int.tmod_eq_emod (by positivity) (by positivity)]
    norm_cast
  · rw [hmax]
    have h1 : n ≤ INT_MAX - INT_MAX % n := by
      have := Int.emod_add_ediv INT_MAX n
      have hq : 1 ≤ INT_MAX / n := Int.le_ediv_of_mul_le hn0 (by omega)
      nlinarith
    exact Int.ediv_pos_of_pos_of_dvd (by omega) hn0.le (Int.dvd_sub_of_emod_eq rfl)

theorem random_uniform_unbiased_witness :
    (0 : Int) < 3 ∧ (3 : Int) ≤ INT_MAX ∧ (∀ v ∈ [(2147483646 : Int), 5], 0 ≤ v) ∧
    random_uniform 3 [2147483646, 5] = some (Int.tmod 5 3, []) :=
  ⟨by decide, by decide, by decide,
    (random_uniform_unbiased 3 (by decide) (by decide) [2147483646, 5] (by decide)).2.1
      [2147483646] 5 [] rfl (by decide) (by decide)⟩


/-! ## Camera claims -/

theorem clamp_eq (lo hi num : Int) :
    clamp lo hi num = if num < lo then lo else if num > hi then hi else num := rfl

/-- C11: `clamp_camera_pos` does not centre an axis on which the view is larger
than the board; it undoes the centring.  On the 4x4 board, `resize_board_view`
with zoom -1 computes for `wide_view` the view of 11x11 cells centred at
`camera_x = camera_y = ( 4 - 11 ) / 2 = -3`, and the `clamp_camera_pos` call
that ends it stores `camera_x = camera_y = 0`.  Called on `wide_view` itself
(10 cells wide, `camera_x = 0`) it stores `camera_x = -6`, where the centred
value is `( 4 - 10 ) / 2 = -3`. -/
theorem clamp_camera_pos_undoes_centring :
    centred_wide_view.width_in_cells > block_board.columns ∧
    centred_wide_view.height_in_cells > block_board.rows ∧
    centred_wide_view.camera_x =
      Int.tdiv (block_board.columns - centred_wide_view.width_in_cells) 2 ∧
    centred_wide_view.camera_y =
      Int.tdiv (block_board.rows - centred_wide_view.height_in_cells) 2 ∧
    (clamp_camera_pos centred_wide_view block_board).camera_x = 0 ∧
    (clamp_camera_pos centred_wide_view block_board).camera_y = 0 ∧
    resize_board_view (-1) wide_view block_board =
      some (clamp_camera_pos centred_wide_view block_board) ∧
    wide_view.width_in_cells > block_board.columns ∧
    Int.tdiv (block_board.columns - wide_view.width_in_cells) 2 = -3 ∧
    (clamp_camera_pos wide_view block_board).camera_x = -6 := by
  decide

theorem resize_accepted_iff (zoom : Int) (v : view) :
    resize_accepted zoom v = true ↔ (v.cell_size > 2 ∧ zoom < 0) ∨ (v.cell_size < 30 ∧ zoom > 0) := by
  simp [resize_accepted]

theorem resize_board_view_rejected (zoom : Int) (v : view) (world : board)
    (h : resize_accepted zoom v = false) : resize_board_view zoom v world = some v := by
  simp [resize_board_view, h]

/-- The view after an accepted zoom to a new cell size other than 0. -/
theorem resize_board_view_accepted (zoom : Int) (v : view) (world : board)
    (h : resize_accepted zoom v = true) (hc : v.cell_size + zoom ≠ 0) :
    resize_board_view zoom v world =
      some (clamp_camera_pos
        { v with
          cell_size := v.cell_size + zoom
          height_in_cells := Int.tdiv v.window_height (v.cell_size + zoom)
          width_in_cells := Int.tdiv v.window_width (v.cell_size + zoom)
          camera_x :=
            (if Int.tdiv v.window_width (v.cell_size + zoom) > world.columns
              then Int.tdiv world.columns 2
              else v.camera_x + Int.tdiv v.width_in_cells 2) -
            Int.tdiv (Int.tdiv v.window_width (v.cell_size + zoom)) 2
          camera_y :=
            (if Int.tdiv v.window_height (v.cell_size + zoom) > world.rows
              then Int.tdiv world.rows 2
              else v.camera_y + Int.tdiv v.height_in_cells 2) -
            Int.tdiv (Int.tdiv v.window_height (v.cell_size + zoom)) 2
          movement_speed_in_cells :=
            if Int.tdiv v.min_movement_speed_in_pixels (v.cell_size + zoom) ≠ 0
              then Int.tdiv v.min_movement_speed_in_pixels (v.cell_size + zoom) else 1 }
        world) := by
  simp [resize_board_view, h, hc]

theorem clamp_camera_pos_cell_size (cam : view) (b : board) :
    (clamp_camera_pos cam b).cell_size = cam.cell_size := rfl

/-- One zoom by -1, 0 or 1 keeps a cell size of 2 to 30 in that range and does
not divide by zero. -/
theorem resize_board_view_unit_step (zoom : Int) (v : view) (world : board)
    (hz : -1 ≤ zoom ∧ zoom ≤ 1) (hv : 2 ≤ v.cell_size ∧ v.cell_size ≤ 30) :
    ∃ v', resize_board_view zoom v world = some v' ∧ 2 ≤ v'.cell_size ∧ v'.cell_size ≤ 30 := by
  cases h : resize_accepted zoom v
  · exact ⟨v, resize_board_view_rejected zoom v world h, hv⟩
  · have hacc := (resize_accepted_iff zoom v).1 h
    have hc : v.cell_size + zoom ≠ 0 := by omega
    refine ⟨_, resize_board_view_accepted zoom v world h hc, ?_⟩
    rw [clamp_camera_pos_cell_size]
    show 2 ≤ v.cell_size + zoom ∧ v.cell_size + zoom ≤ 30
    omega

theorem resize_board_view_times_unit_steps (zooms : List Int) (world : board) (v : view)
    (hz : ∀ zoom ∈ zooms, -1 ≤ zoom ∧ zoom ≤ 1) (hv : 2 ≤ v.cell_size ∧ v.cell_size ≤ 30) :
    ∃ v', resize_board_view_times zooms v world = some v' ∧
      2 ≤ v'.cell_size ∧ v'.cell_size ≤ 30 := by
  unfold resize_board_view_times
  induction zooms generalizing v with
  | nil => exact ⟨v, rfl, hv⟩
  | cons zoom zooms ih =>
    obtain ⟨v1, h1, hv1⟩ :=
      resize_board_view_unit_step zoom v world (hz zoom (List.mem_cons_self _ _)) hv
    obtain ⟨v', h', hv'⟩ := ih v1 (fun z hz' => hz z (List.mem_cons_of_mem _ hz')) hv1
    refine ⟨v', ?_, hv'⟩
    rw [List.foldl_cons, Option.some_bind, h1]
    exact h'

/-- C12 as stated fails: a view with `cell_size = 3` zoomed by -1 would reach
`cell_size = 2 <= 2`, yet the call is not a no-op; it sets `cell_size` to 2 and
recomputes the view, so a cell size that starts in `[3, 29]` leaves that range. -/
theorem resize_board_view_guard_on_old_size :
    small_cell_view.cell_size + (-1) ≤ 2 ∧
    resize_board_view (-1) small_cell_view empty_board_20 ≠ some small_cell_view ∧
    (resize_board_view (-1) small_cell_view empty_board_20).map view.cell_size = some 2 := by
  decide

/-- C12, amended: `resize_board_view` is a no-op exactly when its guard on the
cell size before the call fails, that is for `zoom = 0`, for `zoom < 0` with
`cell_size <= 2` and for `zoom > 0` with `cell_size >= 30`; an accepted call
sets `cell_size` to `cell_size + zoom` whatever that sum is.  Consequently a
view whose `cell_size` starts in `[2, 30]` keeps it in `[2, 30]` after any
sequence of zoom calls by -1, 0 or 1, none of which divides by zero. -/
theorem resize_board_view_noop (zoom : Int) (v : view) (world : board) :
    (resize_accepted zoom v = false ↔
      zoom = 0 ∨ (zoom < 0 ∧ v.cell_size ≤ 2) ∨ (zoom > 0 ∧ v.cell_size ≥ 30)) ∧
    (resize_accepted zoom v = false → resize_board_view zoom v world = some v) ∧
    (resize_accepted zoom v = true →
      ∀ v', resize_board_view zoom v world = some v' → v'.cell_size = v.cell_size + zoom) ∧
    (∀ zooms : List Int, (∀ z ∈ zooms, -1 ≤ z ∧ z ≤ 1) →
      2 ≤ v.cell_size ∧ v.cell_size ≤ 30 →
      ∃ v', resize_board_view_times zooms v world = some v' ∧
        2 ≤ v'.cell_size ∧ v'.cell_size ≤ 30) := by
  refine ⟨?_, resize_board_view_rejected zoom v world, ?_, ?_⟩
  · rw [← Bool.not_eq_true, resize_accepted_iff]
    omega
  · intro h v' hv'
    by_cases hc : v.cell_size + zoom = 0
    · simp [resize_board_view, h, hc] at hv'
    · rw [resize_board_view_accepted zoom v world h hc] at hv'
      rw [← Option.some.inj hv', clamp_camera_pos_cell_size]
  · intro zooms hz hv
    exact resize_board_view_times_unit_steps zooms world v hz hv

/-- C20 as stated fails: a view with `cell_size = 3` zoomed by -3 passes the
guard (`cell_size > 2` and `zoom < 0`), the new cell size is 0, and the
divisions by `cell_size` are divisions by zero. -/
theorem resize_board_view_divides_by_zero :
    3 ≤ small_cell_view.cell_size ∧ small_cell_view.cell_size ≤ 29 ∧
    resize_accepted (-3) small_cell_view = true ∧
    small_cell_view.cell_size + (-3) = 0 ∧
    resize_board_view (-3) small_cell_view empty_board_20 = none := by
  decide

/-- C20, amended: for a view with `cell_size` in `[3, 29]` and a zoom of at
least -2 that passes the guard (so for every zoom by -1 or 1), the new cell
size is strictly positive and `resize_board_view` does not divide by zero. -/
theorem resize_board_view_no_division_by_zero (zoom : Int) (v : view) (world : board)
    (hv : 3 ≤ v.cell_size ∧ v.cell_size ≤ 29) (hz : -2 ≤ zoom)
    (hacc : resize_accepted zoom v = true) :
    0 < v.cell_size + zoom ∧ ∃ v', resize_board_view zoom v world = some v' :=
  ⟨by omega, _, resize_board_view_accepted zoom v world hacc (by omega)⟩

theorem resize_board_view_no_division_by_zero_witness :
    0 < small_cell_view.cell_size + (-1) ∧
    ∃ v', resize_board_view (-1) small_cell_view empty_board_20 = some v' :=
  resize_board_view_no_division_by_zero (-1) small_cell_view empty_board_20
    (by decide) (by decide) (by decide)

theorem clamp_camera_pos_camera_x (cam : view) (b : board) :
    (clamp_camera_pos cam b).camera_x = clamp 0 (b.columns - cam.width_in_cells) cam.camera_x :=
  rfl

theorem clamp_camera_pos_camera_y (cam : view) (b : board) :
    (clamp_camera_pos cam b).camera_y = clamp 0 (b.rows - cam.height_in_cells) cam.camera_y :=
  rfl

theorem clamp_in_range (lo hi num : Int) (h : lo ≤ hi) :
    lo ≤ clamp lo hi num ∧ clamp lo hi num ≤ hi := by
  rw [clamp_eq]
  split_ifs <;> omega

theorem clamp_of_in_range (lo hi num : Int) (h0 : lo ≤ num) (h1 : num ≤ hi) :
    clamp lo hi num = num := by
  rw [clamp_eq]
  split_ifs <;> omega

/-- C13 as stated fails: on the empty 20x20 board the view of 12x12 cells in
the top left corner is in bounds and smaller than the board; zooming by -1
gives a view of 16x16 cells, again in bounds and smaller than the board, but
the clamp keeps the camera at `(0, 0)` and the centre cell moves from `(6, 6)`
to `(8, 8)`, two cells in each coordinate. -/
theorem resize_board_view_centre_moves :
    camera_in_bounds corner_view empty_board_20 = true ∧
    corner_view.width_in_cells < empty_board_20.columns ∧
    corner_view.height_in_cells < empty_board_20.rows ∧
    resize_accepted (-1) corner_view = true ∧
    resize_board_view (-1) corner_view empty_board_20 =
      some { corner_view with cell_size := 3, width_in_cells := 16, height_in_cells := 16 } ∧
    camera_in_bounds
      { corner_view with cell_size := 3, width_in_cells := 16, height_in_cells := 16 }
      empty_board_20 = true ∧
    (16 : Int) < empty_board_20.columns ∧ (16 : Int) < empty_board_20.rows ∧
    corner_view.camera_x + Int.tdiv corner_view.width_in_cells 2 = 6 ∧
    corner_view.camera_y + Int.tdiv corner_view.height_in_cells 2 = 6 ∧
    (0 : Int) + Int.tdiv 16 2 = 8 := by
  decide

/-- C13, amended: after an accepted `resize_board_view` call that leaves the
view smaller than the board in both dimensions, the centre cell
`(camera_x + width_in_cells/2, camera_y + height_in_cells/2)` is the centre
cell before the call, in each coordinate, when the camera position that puts
the new view around the old centre needs no clamping, that is when
`0 <= centre_x - width/2 <= columns - width` for the new width and
`0 <= centre_y - height/2 <= rows - height` for the new height. -/
theorem resize_board_view_centre_kept (zoom : Int) (v v' : view) (world : board)
    (hacc : resize_accepted zoom v = true)
    (hres : resize_board_view zoom v world = some v')
    (hw : v'.width_in_cells < world.columns) (hh : v'.height_in_cells < world.rows)
    (hx0 : 0 ≤ v.camera_x + Int.tdiv v.width_in_cells 2 - Int.tdiv v'.width_in_cells 2)
    (hx1 : v.camera_x + Int.tdiv v.width_in_cells 2 - Int.tdiv v'.width_in_cells 2 ≤
      world.columns - v'.width_in_cells)
    (hy0 : 0 ≤ v.camera_y + Int.tdiv v.height_in_cells 2 - Int.tdiv v'.height_in_cells 2)
    (hy1 : v.camera_y + Int.tdiv v.height_in_cells 2 - Int.tdiv v'.height_in_cells 2 ≤
      world.rows - v'.height_in_cells) :
    v'.camera_x + Int.tdiv v'.width_in_cells 2 = v.camera_x + Int.tdiv v.width_in_cells 2 ∧
    v'.camera_y + Int.tdiv v'.height_in_cells 2 = v.camera_y + Int.tdiv v.height_in_cells 2 := by
  by_cases hc : v.cell_size + zoom = 0
  · simp [resize_board_view, hacc, hc] at hres
  rw [resize_board_view_accepted zoom v world hacc hc] at hres
  have hv' := Option.some.inj hres
  have hwidth : v'.width_in_cells = Int.tdiv v.window_width (v.cell_size + zoom) := by
    rw [← hv']; rfl
  have hheight : v'.height_in_cells = Int.tdiv v.window_height (v.cell_size + zoom) := by
    rw [← hv']; rfl
  have hcx : v'.camera_x = clamp 0 (world.columns - v'.width_in_cells)
      ((if v'.width_in_cells > world.columns then Int.tdiv world.columns 2
        else v.camera_x + Int.tdiv v.width_in_cells 2) - Int.tdiv v'.width_in_cells 2) := by
    rw [hwidth, ← hv']; rfl
  have hcy : v'.camera_y = clamp 0 (world.rows - v'.height_in_cells)
      ((if v'.height_in_cells > world.rows then Int.tdiv world.rows 2
        else v.camera_y + Int.tdiv v.height_in_cells 2) - Int.tdiv v'.height_in_cells 2) := by
    rw [hheight, ← hv']; rfl
  rw [if_neg (by omega)] at hcx hcy
  rw [clamp_of_in_range _ _ _ hx0 hx1] at hcx
  rw [clamp_of_in_range _ _ _ hy0 hy1] at hcy
  omega

theorem resize_board_view_centre_kept_witness :
    (8 : Int) + Int.tdiv 16 2 = 10 + Int.tdiv 12 2 ∧
    (8 : Int) + Int.tdiv 16 2 = 10 + Int.tdiv 12 2 :=
  resize_board_view_centre_kept (-1)
    { corner_view with camera_x := 10, camera_y := 10 }
    { corner_view with camera_x := 8, camera_y := 8, cell_size := 3,
                       width_in_cells := 16, height_in_cells := 16 }
    { rows := 100, columns := 100, grid := List.replicate 1250 0 }
    (by decide) (by decide) (by decide) (by decide) (by decide) (by decide) (by decide)
    (by decide)

theorem camera_in_bounds_iff (v : view) (b : board) :
    camera_in_bounds v b = true ↔
      (0 ≤ v.camera_x ∧ v.camera_x ≤ b.columns - v.width_in_cells) ∧
      (0 ≤ v.camera_y ∧ v.camera_y ≤ b.rows - v.height_in_cells) := by
  simp [camera_in_bounds]

theorem clamp_camera_pos_width (cam : view) (b : board) :
    (clamp_camera_pos cam b).width_in_cells = cam.width_in_cells := rfl

theorem clamp_camera_pos_height (cam : view) (b : board) :
    (clamp_camera_pos cam b).height_in_cells = cam.height_in_cells := rfl

/-- A clamped camera is in bounds when the view is not larger than the board. -/
theorem camera_in_bounds_clamp (cam : view) (b : board)
    (hw : cam.width_in_cells ≤ b.columns) (hh : cam.height_in_cells ≤ b.rows) :
    camera_in_bounds (clamp_camera_pos cam b) b = true := by
  rw [camera_in_bounds_iff, clamp_camera_pos_camera_x, clamp_camera_pos_camera_y,
    clamp_camera_pos_width, clamp_camera_pos_height]
  exact ⟨clamp_in_range _ _ _ (by omega), clamp_in_range _ _ _ (by omega)⟩

/-- C14 as stated fails: on the 4x4 board, zooming a view of 10 pixel cells in
a 100x100 window by -1 is accepted and changes the view (the cell size becomes
9, the view 11x11 cells), and afterwards `camera_in_bounds` is false: no camera
position is in bounds for a view that is larger than the board. -/
theorem resize_board_view_out_of_bounds :
    resize_accepted (-1) wide_view = true ∧
    resize_board_view (-1) wide_view block_board =
      some { wide_view with cell_size := 9, width_in_cells := 11, height_in_cells := 11 } ∧
    ({ wide_view with cell_size := 9, width_in_cells := 11, height_in_cells := 11 } : view) ≠
      wide_view ∧
    camera_in_bounds
      { wide_view with cell_size := 9, width_in_cells := 11, height_in_cells := 11 }
      block_board = false := by
  decide

/-- C14, amended: `move_camera_by` is rejected (the view is unchanged) exactly
when `camera_in_bounds` is false beforehand; otherwise it sets the camera to
the clamp of `(camera_x + dx, camera_y + dy)` and `camera_in_bounds` holds
afterwards.  A rejected `resize_board_view` leaves the view unchanged; after an
accepted one `0 <= camera_x <= columns - width_in_cells` holds if the new view
is not wider than the board, `0 <= camera_y <= rows - height_in_cells` holds if
it is not higher, and `camera_in_bounds` holds if it is neither. -/
theorem camera_stays_in_bounds (dx dy zoom : Int) (v : view) (b : board) :
    (camera_in_bounds v b = false → move_camera_by dx dy v b = v) ∧
    (camera_in_bounds v b = true →
      move_camera_by dx dy v b =
        clamp_camera_pos { v with camera_x := v.camera_x + dx, camera_y := v.camera_y + dy } b ∧
      (move_camera_by dx dy v b).camera_x =
        clamp 0 (b.columns - v.width_in_cells) (v.camera_x + dx) ∧
      (move_camera_by dx dy v b).camera_y =
        clamp 0 (b.rows - v.height_in_cells) (v.camera_y + dy) ∧
      camera_in_bounds (move_camera_by dx dy v b) b = true) ∧
    (resize_accepted zoom v = false → resize_board_view zoom v b = some v) ∧
    (resize_accepted zoom v = true → ∀ v', resize_board_view zoom v b = some v' →
      (v'.width_in_cells ≤ b.columns →
        0 ≤ v'.camera_x ∧ v'.camera_x ≤ b.columns - v'.width_in_cells) ∧
      (v'.height_in_cells ≤ b.rows →
        0 ≤ v'.camera_y ∧ v'.camera_y ≤ b.rows - v'.height_in_cells) ∧
      (v'.width_in_cells ≤ b.columns → v'.height_in_cells ≤ b.rows →
        camera_in_bounds v' b = true)) := by
  refine ⟨?_, ?_, resize_board_view_rejected zoom v b, ?_⟩
  · intro h
    simp [move_camera_by, h]
  · intro h
    have hm : move_camera_by dx dy v b =
        clamp_camera_pos { v with camera_x := v.camera_x + dx, camera_y := v.camera_y + dy } b := by
      simp [move_camera_by, h]
    obtain ⟨hx, hy⟩ := (camera_in_bounds_iff v b).1 h
    refine ⟨hm, by rw [hm]; rfl, by rw [hm]; rfl, ?_⟩
    rw [hm]
    exact camera_in_bounds_clamp _ b (by show v.width_in_cells ≤ b.columns; omega)
      (by show v.height_in_cells ≤ b.rows; omega)
  · intro h v' hv'
    by_cases hc : v.cell_size + zoom = 0
    · simp [resize_board_view, h, hc] at hv'
    rw [resize_board_view_accepted zoom v b h hc] at hv'
    have e := Option.some.inj hv'
    subst e
    refine ⟨?_, ?_, ?_⟩
    · intro hw
      rw [clamp_camera_pos_camera_x]
      exact clamp_in_range _ _ _ (by rw [clamp_camera_pos_width] at hw; omega)
    · intro hh
      rw [clamp_camera_pos_camera_y]
      exact clamp_in_range _ _ _ (by rw [clamp_camera_pos_height] at hh; omega)
    · intro hw hh
      exact camera_in_bounds_clamp _ b hw hh

theorem floor_div_pos (a c : Int) (hc : 0 < c) : ⌊(a : ℚ) / (c : ℚ)⌋ = a / c := by
  obtain ⟨n, rfl⟩ := Int.eq_ofNat_of_zero_le hc.le
  rw [Int.cast_natCast]
  exact Rat.floor_intCast_div_natCast a n

/-- C18: an accepted `resize_board_view` call on a view with non-negative
`window_width`, `window_height` and `min_movement_speed_in_pixels` and a new
cell size `c = cell_size + zoom > 0` returns a view with `cell_size = c`,
`width_in_cells` and `height_in_cells` the floors of `window_width / c` and
`window_height / c`, `movement_speed_in_cells = max( 1,
min_movement_speed_in_pixels / c ) >= 1`, and the window size and the minimal
speed unchanged. -/
theorem resize_board_view_fields (zoom : Int) (v : view) (world : board)
    (hacc : resize_accepted zoom v = true)
    (hw : 0 ≤ v.window_width) (hh : 0 ≤ v.window_height)
    (hm : 0 ≤ v.min_movement_speed_in_pixels) (hc : 0 < v.cell_size + zoom) :
    ∃ v', resize_board_view zoom v world = some v' ∧
      v'.cell_size = v.cell_size + zoom ∧
      v'.width_in_cells = v.window_width / (v.cell_size + zoom) ∧
      v'.width_in_cells = ⌊(v.window_width : ℚ) / ((v.cell_size + zoom : Int) : ℚ)⌋ ∧
      v'.height_in_cells = v.window_height / (v.cell_size + zoom) ∧
      v'.height_in_cells = ⌊(v.window_height : ℚ) / ((v.cell_size + zoom : Int) : ℚ)⌋ ∧
      v'.movement_speed_in_cells =
        max 1 (v.min_movement_speed_in_pixels / (v.cell_size + zoom)) ∧
      1 ≤ v'.movement_speed_in_cells ∧
      v'.window_width = v.window_width ∧ v'.window_height = v.window_height ∧
      v'.min_movement_speed_in_pixels = v.min_movement_speed_in_pixels := by
  refine ⟨_, resize_board_view_accepted zoom v world hacc (by omega), rfl, ?_, ?_, ?_, ?_,
    ?_, ?_, rfl, rfl, rfl⟩
  · exact Int.tdiv_eq_ediv hw hc.le
  · show Int.tdiv v.window_width (v.cell_size + zoom) = _
    rw [Int.tdiv_eq_ediv hw hc.le, floor_div_pos _ _ hc]
  · exact Int.tdiv_eq_ediv hh hc.le
  · show Int.tdiv v.window_height (v.cell_size + zoom) = _
    rw [Int.tdiv_eq_ediv hh hc.le, floor_div_pos _ _ hc]
  · show (if Int.tdiv v.min_movement_speed_in_pixels (v.cell_size + zoom) ≠ 0
        then Int.tdiv v.min_movement_speed_in_pixels (v.cell_size + zoom) else 1) = _
    rw [Int.tdiv_eq_ediv hm hc.le]
    have : 0 ≤ v.min_movement_speed_in_pixels / (v.cell_size + zoom) :=
      Int.ediv_nonneg hm hc.le
    split_ifs <;> omega
  · show 1 ≤ (if Int.tdiv v.min_movement_speed_in_pixels (v.cell_size + zoom) ≠ 0
        then Int.tdiv v.min_movement_speed_in_pixels (v.cell_size + zoom) else 1)
    rw [Int.tdiv_eq_ediv hm hc.le]
    have : 0 ≤ v.min_movement_speed_in_pixels / (v.cell_size + zoom) :=
      Int.ediv_nonneg hm hc.le
    split_ifs <;> omega

theorem resize_board_view_fields_witness :
    ∃ v', resize_board_view (-1) corner_view empty_board_20 = some v' ∧
      v'.cell_size = corner_view.cell_size + (-1) ∧
      v'.width_in_cells = corner_view.window_width / (corner_view.cell_size + (-1)) ∧
      v'.width_in_cells =
        ⌊(corner_view.window_width : ℚ) / ((corner_view.cell_size + (-1) : Int) : ℚ)⌋ ∧
      v'.height_in_cells = corner_view.window_height / (corner_view.cell_size + (-1)) ∧
      v'.height_in_cells =
        ⌊(corner_view.window_height : ℚ) / ((corner_view.cell_size + (-1) : Int) : ℚ)⌋ ∧
      v'.movement_speed_in_cells =
        max 1 (corner_view.min_movement_speed_in_pixels / (corner_view.cell_size + (-1))) ∧
      1 ≤ v'.movement_speed_in_cells ∧
      v'.window_width = corner_view.window_width ∧
      v'.window_height = corner_view.window_height ∧
      v'.min_movement_speed_in_pixels = corner_view.min_movement_speed_in_pixels :=
  resize_board_view_fields (-1) corner_view empty_board_20 (by decide) (by decide) (by decide)
    (by decide) (by decide)

/-! ## Generations -/

/-- The cell states after `update_board`, on and off the board, whatever the
temporary grid holds. -/
theorem update_board_next (sizeof_board : Int) (tmp : List Nat) (b : board)
    (hfit : b.rows * b.columns ≤ INT_MAX)
    (htmp : tmp.length = grid_size sizeof_board b.rows b.columns) :
    (update_board sizeof_board tmp b).1.rows = b.rows ∧
    (update_board sizeof_board tmp b).1.columns = b.columns ∧
    ∀ x y : Int, cell_state x y (update_board sizeof_board tmp b).1 =
      (pos_in_board x y b && updated_cell_state x y b) := by
  have h0 : temp_ok b { rows := b.rows, columns := b.columns, grid := tmp } := by
    refine ⟨rfl, rfl, ?_⟩
    intro x y h
    show bit_index x y b / 8 < tmp.length
    rw [htmp]
    exact byte_index_lt_grid_size sizeof_board x y b hfit h
  have hrows : ∀ i ∈ List.range b.rows.toNat, (i : Int) < b.rows := by
    intro i hi
    have := List.mem_range.1 hi
    omega
  obtain ⟨hok, hcells⟩ := update_rows_cells b _ hrows
    ({ rows := b.rows, columns := b.columns, grid := tmp }, 0) h0
  obtain ⟨hR, hC, hcov⟩ := hok
  refine ⟨hR, hC, ?_⟩
  intro x y
  cases hin : pos_in_board x y b
  · have hp : pos_in_board x y (update_board sizeof_board tmp b).1 = false := by
      rw [← hin]
      exact pos_in_board_congr x y b (update_board sizeof_board tmp b).1 hR hC
    rw [cell_state_eq, hp]
    rfl
  · obtain ⟨hx0, hy0, hx1, hy1⟩ := (pos_in_board_iff x y b).1 hin
    have hy : ∃ i ∈ List.range b.rows.toNat, y = (i : Int) :=
      ⟨y.toNat, List.mem_range.2 (by omega), by omega⟩
    have hfin := hcells x y
    rw [if_pos ⟨hy, hx0, hx1⟩] at hfin
    rw [Bool.true_and, ← hfin]
    apply cell_state_congr
    · exact rfl
    · exact rfl
    · exact getD_take_append _ _ _ _
        (by rw [bit_index_congr x y b _ hC]
            exact byte_index_lt_grid_size sizeof_board x y b hfit hin)
        (by rw [bit_index_congr x y b _ hC]
            exact hcov x y hin)

/-- The transition rule reads a board through `cell_state` only. -/
theorem updated_cell_state_congr (a b : board)
    (h : ∀ x y : Int, cell_state x y a = cell_state x y b) (x y : Int) :
    updated_cell_state x y a = updated_cell_state x y b := by
  simp only [updated_cell_state, living_neigbors, living_neighbors, h]

/-- Two boards with the same dimensions and cell states have the same
dimensions and cell states after `update_board`. -/
theorem update_board_congr (sizeof_board : Int) (ta tb : List Nat) (a b : board)
    (hr : a.rows = b.rows) (hc : a.columns = b.columns)
    (h : ∀ x y : Int, cell_state x y a = cell_state x y b)
    (hfit : b.rows * b.columns ≤ INT_MAX)
    (hta : ta.length = grid_size sizeof_board b.rows b.columns)
    (htb : tb.length = grid_size sizeof_board b.rows b.columns) :
    (update_board sizeof_board ta a).1.rows = (update_board sizeof_board tb b).1.rows ∧
    (update_board sizeof_board ta a).1.columns = (update_board sizeof_board tb b).1.columns ∧
    ∀ x y : Int, cell_state x y (update_board sizeof_board ta a).1 =
      cell_state x y (update_board sizeof_board tb b).1 := by
  obtain ⟨ar, ac, acell⟩ := update_board_next sizeof_board ta a (by rw [hr, hc]; exact hfit)
    (by rw [hr, hc]; exact hta)
  obtain ⟨br, bc, bcell⟩ := update_board_next sizeof_board tb b hfit htb
  refine ⟨by rw [ar, br, hr], by rw [ac, bc, hc], ?_⟩
  intro x y
  rw [acell, bcell, pos_in_board_congr x y b a hr hc, updated_cell_state_congr a b h]

/-- One `update_board` call leads from any board with the cells of `g` to a
board with the cells of `g'`, when the transition rule leads from `g` to `g'`. -/
theorem update_board_to (sizeof_board : Int) (tmp : List Nat) (a g g' : board)
    (hr : a.rows = g.rows) (hc : a.columns = g.columns)
    (h : ∀ x y : Int, cell_state x y a = cell_state x y g)
    (hfit : g.rows * g.columns ≤ INT_MAX)
    (htmp : tmp.length = grid_size sizeof_board g.rows g.columns)
    (hr' : g'.rows = g.rows) (hc' : g'.columns = g.columns)
    (hstep : ∀ x y : Int,
      (pos_in_board x y g && updated_cell_state x y g) = cell_state x y g') :
    (update_board sizeof_board tmp a).1.rows = g'.rows ∧
    (update_board sizeof_board tmp a).1.columns = g'.columns ∧
    ∀ x y : Int, cell_state x y (update_board sizeof_board tmp a).1 = cell_state x y g' := by
  obtain ⟨ar, ac, acell⟩ := update_board_next sizeof_board tmp a (by rw [hr, hc]; exact hfit)
    (by rw [hr, hc]; exact htmp)
  refine ⟨by rw [ar, hr, hr'], by rw [ac, hc, hc'], ?_⟩
  intro x y
  rw [acell, pos_in_board_congr x y g a hr hc, updated_cell_state_congr a g h, hstep]

theorem cell_state_off (x y : Int) (b : board) (h : pos_in_board x y b = false) :
    cell_state x y b = false := by
  rw [cell_state_eq, h]
  rfl

set_option maxRecDepth 100000 in
theorem glider_board_cells (x y : Int) :
    cell_state x y glider_board = true ↔
      (x, y) ∈ ([(1, 0), (2, 1), (0, 2), (1, 2), (2, 2)] : List (Int × Int)) := by
  cases hin : pos_in_board x y glider_board
  · rw [cell_state_off x y _ hin]
    have := (pos_in_board_iff x y glider_board).not.1 (by rw [hin]; simp)
    simp only [glider_board] at this
    simp only [List.mem_cons, Prod.mk.injEq, List.mem_singleton, List.not_mem_nil,
      Bool.false_eq_true, false_iff, or_false]
    omega
  · obtain ⟨hx0, hy0, hx1, hy1⟩ := (pos_in_board_iff x y glider_board).1 hin
    simp only [glider_board] at hx1 hy1
    interval_cases x <;> interval_cases y <;> decide

set_option maxRecDepth 100000 in
theorem glider_gen4_cells (x y : Int) :
    cell_state x y glider_gen4 = true ↔
      (x, y) ∈ ([(2, 1), (3, 2), (1, 3), (2, 3), (3, 3)] : List (Int × Int)) := by
  cases hin : pos_in_board x y glider_gen4
  · rw [cell_state_off x y _ hin]
    have := (pos_in_board_iff x y glider_gen4).not.1 (by rw [hin]; simp)
    simp only [glider_gen4] at this
    simp only [List.mem_cons, Prod.mk.injEq, List.mem_singleton, List.not_mem_nil,
      Bool.false_eq_true, false_iff, or_false]
    omega
  · obtain ⟨hx0, hy0, hx1, hy1⟩ := (pos_in_board_iff x y glider_gen4).1 hin
    simp only [glider_gen4] at hx1 hy1
    interval_cases x <;> interval_cases y <;> decide

set_option maxRecDepth 100000 in
theorem glider_step1 (x y : Int) :
    (pos_in_board x y glider_board && updated_cell_state x y glider_board) =
      cell_state x y glider_gen1 := by
  cases hin : pos_in_board x y glider_board
  · rw [cell_state_off x y glider_gen1 hin]
    rfl
  · obtain ⟨hx0, hy0, hx1, hy1⟩ := (pos_in_board_iff x y glider_board).1 hin
    simp only [glider_board] at hx1 hy1
    interval_cases x <;> interval_cases y <;> decide

set_option maxRecDepth 100000 in
theorem glider_step2 (x y : Int) :
    (pos_in_board x y glider_gen1 && updated_cell_state x y glider_gen1) =
      cell_state x y glider_gen2 := by
  cases hin : pos_in_board x y glider_gen1
  · rw [cell_state_off x y glider_gen2 hin]
    rfl
  · obtain ⟨hx0, hy0, hx1, hy1⟩ := (pos_in_board_iff x y glider_gen1).1 hin
    simp only [glider_gen1] at hx1 hy1
    interval_cases x <;> interval_cases y <;> decide

set_option maxRecDepth 100000 in
theorem glider_step3 (x y : Int) :
    (pos_in_board x y glider_gen2 && updated_cell_state x y glider_gen2) =
      cell_state x y glider_gen3 := by
  cases hin : pos_in_board x y glider_gen2
  · rw [cell_state_off x y glider_gen3 hin]
    rfl
  · obtain ⟨hx0, hy0, hx1, hy1⟩ := (pos_in_board_iff x y glider_gen2).1 hin
    simp only [glider_gen2] at hx1 hy1
    interval_cases x <;> interval_cases y <;> decide

set_option maxRecDepth 100000 in
theorem glider_step4 (x y : Int) :
    (pos_in_board x y glider_gen3 && updated_cell_state x y glider_gen3) =
      cell_state x y glider_gen4 := by
  cases hin : pos_in_board x y glider_gen3
  · rw [cell_state_off x y glider_gen4 hin]
    rfl
  · obtain ⟨hx0, hy0, hx1, hy1⟩ := (pos_in_board_iff x y glider_gen3).1 hin
    simp only [glider_gen3] at hx1 hy1
    interval_cases x <;> interval_cases y <;> decide

/-- C15: on a 5x5 board whose live cells are exactly the glider
`(1,0), (2,1), (0,2), (1,2), (2,2)`, four successive `update_board` calls,
whatever their temporary grids hold, give a 5x5 board whose live cells are
exactly `(2,1), (3,2), (1,3), (2,3), (3,3)`: the glider one column to the right
and one row down. -/
theorem glider_four_steps (sizeof_board : Int) (b : board) (t1 t2 t3 t4 : List Nat)
    (hr : b.rows = 5) (hc : b.columns = 5)
    (hb : ∀ x y : Int, cell_state x y b = true ↔
      (x, y) ∈ ([(1, 0), (2, 1), (0, 2), (1, 2), (2, 2)] : List (Int × Int)))
    (h1 : t1.length = grid_size sizeof_board 5 5)
    (h2 : t2.length = grid_size sizeof_board 5 5)
    (h3 : t3.length = grid_size sizeof_board 5 5)
    (h4 : t4.length = grid_size sizeof_board 5 5) :
    (update_board_times sizeof_board [t1, t2, t3, t4] b).rows = 5 ∧
    (update_board_times sizeof_board [t1, t2, t3, t4] b).columns = 5 ∧
    ∀ x y : Int, cell_state x y (update_board_times sizeof_board [t1, t2, t3, t4] b) = true ↔
      (x, y) ∈ ([(2, 1), (3, 2), (1, 3), (2, 3), (3, 3)] : List (Int × Int)) := by
  have hfit : (5 : Int) * 5 ≤ INT_MAX := by decide
  have e0 : ∀ x y : Int, cell_state x y b = cell_state x y glider_board := by
    intro x y
    rw [Bool.eq_iff_iff, hb, glider_board_cells]
  obtain ⟨r1, c1, e1⟩ := update_board_to sizeof_board t1 b glider_board glider_gen1
    hr hc e0 hfit h1 rfl rfl glider_step1
  obtain ⟨r2, c2, e2⟩ := update_board_to sizeof_board t2 _ glider_gen1 glider_gen2
    r1 c1 e1 hfit h2 rfl rfl glider_step2
  obtain ⟨r3, c3, e3⟩ := update_board_to sizeof_board t3 _ glider_gen2 glider_gen3
    r2 c2 e2 hfit h3 rfl rfl glider_step3
  obtain ⟨r4, c4, e4⟩ := update_board_to sizeof_board t4 _ glider_gen3 glider_gen4
    r3 c3 e3 hfit h4 rfl rfl glider_step4
  refine ⟨r4, c4, ?_⟩
  intro x y
  rw [← glider_gen4_cells]
  exact Bool.eq_iff_iff.1 (e4 x y)

set_option maxRecDepth 100000 in
theorem glider_four_steps_witness :
    (update_board_times 8 [[0, 0, 0, 0], [255, 255, 255, 255], [1, 2, 3, 4], [0, 0, 0, 0]]
      glider_board).rows = 5 ∧
    (update_board_times 8 [[0, 0, 0, 0], [255, 255, 255, 255], [1, 2, 3, 4], [0, 0, 0, 0]]
      glider_board).columns = 5 ∧
    ∀ x y : Int,
      cell_state x y
        (update_board_times 8 [[0, 0, 0, 0], [255, 255, 255, 255], [1, 2, 3, 4], [0, 0, 0, 0]]
          glider_board) = true ↔
      (x, y) ∈ ([(2, 1), (3, 2), (1, 3), (2, 3), (3, 3)] : List (Int × Int)) :=
  glider_four_steps 8 glider_board [0, 0, 0, 0] [255, 255, 255, 255] [1, 2, 3, 4] [0, 0, 0, 0]
    rfl rfl glider_board_cells (by decide) (by decide) (by decide) (by decide)

/-- The transition rule on a 3x3 neighbourhood cut from a 2x2 block: `am a0 ap`
say whether the columns `x-1, x, x+1` meet the block, `bm b0 bp` the same for
the rows; the cell `(x, y)` keeps its state `a0 && b0`. -/
theorem block_rule (am a0 ap bm b0 bp : Bool)
    (ha1 : (am && ap) = false) (ha2 : a0 = true → (am || ap) = true)
    (hb1 : (bm && bp) = false) (hb2 : b0 = true → (bm || bp) = true) :
    (decide (bool_int (am && bm) + bool_int (a0 && bm) + bool_int (ap && bm) +
        bool_int (am && b0) + bool_int (ap && b0) +
        bool_int (am && bp) + bool_int (a0 && bp) + bool_int (ap && bp) = 3) ||
      ((a0 && b0) &&
        decide (bool_int (am && bm) + bool_int (a0 && bm) + bool_int (ap && bm) +
          bool_int (am && b0) + bool_int (ap && b0) +
          bool_int (am && bp) + bool_int (a0 && bp) + bool_int (ap && bp) = 2))) =
      (a0 && b0) := by
  revert ha1 ha2 hb1 hb2
  revert am a0 ap bm b0 bp
  decide

/-- A 2x2 block is a fixed point of the transition rule: every cell, on or off
the board, keeps its state. -/
theorem block_fixed (b : board) (x0 y0 : Int)
    (hblock : ∀ x y : Int, cell_state x y b = true ↔
      (x = x0 ∨ x = x0 + 1) ∧ (y = y0 ∨ y = y0 + 1)) (x y : Int) :
    (pos_in_board x y b && updated_cell_state x y b) = cell_state x y b := by
  have hcs : ∀ u v : Int, cell_state u v b =
      (decide (u = x0 ∨ u = x0 + 1) && decide (v = y0 ∨ v = y0 + 1)) := by
    intro u v
    rw [Bool.eq_iff_iff, hblock]
    simp
  have hupd : updated_cell_state x y b = cell_state x y b := by
    simp only [updated_cell_state, living_neigbors, living_neighbors, hcs]
    apply block_rule
    · simp only [Bool.and_eq_false_iff, decide_eq_false_iff_not]; omega
    · simp only [Bool.or_eq_true, decide_eq_true_eq]; omega
    · simp only [Bool.and_eq_false_iff, decide_eq_false_iff_not]; omega
    · simp only [Bool.or_eq_true, decide_eq_true_eq]; omega
  rw [hupd]
  cases hc : cell_state x y b
  · simp
  · rw [cell_state_eq] at hc
    simp only [Bool.and_eq_true] at hc
    simp [hc.1]

theorem update_board_times_fixed (sizeof_board : Int) (g : board)
    (hfit : g.rows * g.columns ≤ INT_MAX)
    (hstep : ∀ x y : Int,
      (pos_in_board x y g && updated_cell_state x y g) = cell_state x y g)
    (tmps : List (List Nat))
    (htmps : ∀ t ∈ tmps, t.length = grid_size sizeof_board g.rows g.columns) (a : board)
    (hr : a.rows = g.rows) (hc : a.columns = g.columns)
    (h : ∀ x y : Int, cell_state x y a = cell_state x y g) :
    (update_board_times sizeof_board tmps a).rows = g.rows ∧
    (update_board_times sizeof_board tmps a).columns = g.columns ∧
    ∀ x y : Int, cell_state x y (update_board_times sizeof_board tmps a) = cell_state x y g := by
  unfold update_board_times
  induction tmps generalizing a with
  | nil => exact ⟨hr, hc, h⟩
  | cons t tmps ih =>
    obtain ⟨r1, c1, e1⟩ := update_board_to sizeof_board t a g g hr hc h hfit
      (htmps t (List.mem_cons_self _ _)) rfl rfl hstep
    rw [List.foldl_cons]
    exact ih (fun u hu => htmps u (List.mem_cons_of_mem _ hu)) _ r1 c1 e1

/-- C16: on a board (of at least 2 rows and 2 columns, with a cell count that
fits an `int`) whose live cells are exactly the 2x2 block
`(x0,y0), (x0+1,y0), (x0,y0+1), (x0+1,y0+1)`, any number of `update_board`
calls, whatever their temporary grids hold, leaves the dimensions and the state
of every cell as they were.  The block lies on the board since its cells are
alive. -/
theorem block_still_life (sizeof_board : Int) (b : board) (x0 y0 : Int)
    (tmps : List (List Nat)) (_hr : 2 ≤ b.rows) (_hc : 2 ≤ b.columns)
    (hfit : b.rows * b.columns ≤ INT_MAX)
    (hblock : ∀ x y : Int, cell_state x y b = true ↔
      (x = x0 ∨ x = x0 + 1) ∧ (y = y0 ∨ y = y0 + 1))
    (htmps : ∀ t ∈ tmps, t.length = grid_size sizeof_board b.rows b.columns) :
    (update_board_times sizeof_board tmps b).rows = b.rows ∧
    (update_board_times sizeof_board tmps b).columns = b.columns ∧
    ∀ x y : Int, cell_state x y (update_board_times sizeof_board tmps b) = cell_state x y b :=
  update_board_times_fixed sizeof_board b hfit (block_fixed b x0 y0 hblock) tmps htmps b rfl rfl
    (fun _ _ => rfl)

set_option maxRecDepth 100000 in
theorem block_board_cells (x y : Int) :
    cell_state x y block_board = true ↔ (x = 1 ∨ x = 1 + 1) ∧ (y = 1 ∨ y = 1 + 1) := by
  cases hin : pos_in_board x y block_board
  · rw [cell_state_off x y _ hin]
    have := (pos_in_board_iff x y block_board).not.1 (by rw [hin]; simp)
    simp only [block_board] at this
    simp only [Bool.false_eq_true, false_iff]
    omega
  · obtain ⟨hx0, hy0, hx1, hy1⟩ := (pos_in_board_iff x y block_board).1 hin
    simp only [block_board] at hx1 hy1
    interval_cases x <;> interval_cases y <;> decide

theorem block_still_life_witness :
    (update_board_times 8 [[0, 0], [255, 255], [7, 7]] block_board).rows = block_board.rows ∧
    (update_board_times 8 [[0, 0], [255, 255], [7, 7]] block_board).columns =
      block_board.columns ∧
    ∀ x y : Int, cell_state x y (update_board_times 8 [[0, 0], [255, 255], [7, 7]] block_board) =
      cell_state x y block_board :=
  block_still_life 8 block_board 1 1 [[0, 0], [255, 255], [7, 7]] (by decide) (by decide)
    (by decide) block_board_cells (by decide)

/-! ## Construction and bounds -/

/-- C17 as stated fails: `init_board( 1, 2, -1 )` returns a board, the 1x2
board with both cells dead, and so does `init_board( 1, 2, 3 )` with `TRUE`
being 1 and `random( )` returning 1 three times, although `living_cell_count`
is below 0 in the first call and above `rows*columns` in the second. -/
theorem init_board_no_rejection :
    init_board 8 1 1 2 (-1) [] = some { rows := 1, columns := 2, grid := [0] } ∧
    init_board 8 1 1 2 3 [1, 1, 1] = some { rows := 1, columns := 2, grid := [2] } := by
  decide

theorem cell_state_zero_grid (x y rows columns : Int) (n : Nat) :
    cell_state x y { rows := rows, columns := columns, grid := List.replicate n 0 } = false := by
  rw [cell_state_eq]
  have : stored_bit x y { rows := rows, columns := columns, grid := List.replicate n 0 } =
      false := by
    simp only [stored_bit, grid_bit, List.getD_eq_getElem?_getD, List.getElem?_replicate]
    split <;> simp
  rw [this, Bool.and_false]

/-- C17, amended: `init_board` checks none of its preconditions.  For positive
`rows` and `columns` and `living_cell_count < 0` it reads no random number and
returns the board of these dimensions whose grid is all zero, every cell
dead. -/
theorem init_board_negative_count (sizeof_board : Int) (TRUE : Nat)
    (rows columns living_cell_count : Int) (stream : List Int)
    (_hr : 0 < rows) (_hc : 0 < columns) (hk : living_cell_count < 0) :
    init_board sizeof_board TRUE rows columns living_cell_count stream =
      some { rows := rows, columns := columns,
             grid := List.replicate (grid_size sizeof_board rows columns) 0 } ∧
    ∀ x y : Int,
      cell_state x y { rows := rows, columns := columns,
                       grid := List.replicate (grid_size sizeof_board rows columns) 0 } =
        false := by
  refine ⟨?_, fun x y => cell_state_zero_grid x y rows columns _⟩
  unfold init_board
  have hik : ¬ (0 : Int) < living_cell_count := by omega
  cases stream.length <;> simp [init_board_loop, hik]

theorem init_board_negative_count_witness :
    init_board 8 1 3 3 (-2) [5, 7] =
      some { rows := 3, columns := 3, grid := List.replicate (grid_size 8 3 3) 0 } ∧
    ∀ x y : Int,
      cell_state x y { rows := 3, columns := 3, grid := List.replicate (grid_size 8 3 3) 0 } =
        false :=
  init_board_negative_count 8 1 3 3 (-2) [5, 7] (by decide) (by decide) (by decide)

/-- C19: on a board with positive dimensions whose cell count fits an `int`,
the bit number `y*columns + x` of a cell of the board lies in
`[0, rows*columns)`, distinct cells have distinct bit numbers, and the byte
index `i / 8` lies below the payload size
`board_byte_size( rows, columns ) - sizeof( board )`; so every grid byte that
`cell_state` and `change_cell_state` access lies inside the payload, and so
does the byte of `rand_coord` in `init_board` for every value of
`random_uniform` in `[0, rows*columns)`. -/
theorem grid_access_in_bounds (sizeof_board : Int) (b : board)
    (hr : 0 < b.rows) (hc : 0 < b.columns) (hfit : b.rows * b.columns ≤ INT_MAX) :
    (∀ x y : Int, pos_in_board x y b = true →
      (bit_index x y b : Int) = y * b.columns + x ∧
      0 ≤ y * b.columns + x ∧ y * b.columns + x < b.rows * b.columns ∧
      ((bit_index x y b / 8 : Nat) : Int) <
        board_byte_size sizeof_board b.rows b.columns - sizeof_board) ∧
    (∀ x y x' y' : Int, pos_in_board x y b = true → pos_in_board x' y' b = true →
      (x, y) ≠ (x', y') → bit_index x y b ≠ bit_index x' y' b) ∧
    (∀ x y : Int, ∀ i ∈ (cell_state_traced x y b).2,
      (i : Int) < board_byte_size sizeof_board b.rows b.columns - sizeof_board) ∧
    (∀ x y : Int, ∀ i ∈ change_cell_state_accesses x y b,
      (i : Int) < board_byte_size sizeof_board b.rows b.columns - sizeof_board) ∧
    (∀ r : Int, 0 ≤ r → r < mul_int b.rows b.columns →
      (((r % 4294967296).toNat / 8 : Nat) : Int) <
        board_byte_size sizeof_board b.rows b.columns - sizeof_board) := by
  have hsize := board_byte_size_eq sizeof_board b.rows b.columns hr hc hfit
  have hbyte : ∀ x y : Int, pos_in_board x y b = true →
      ((bit_index x y b / 8 : Nat) : Int) <
        board_byte_size sizeof_board b.rows b.columns - sizeof_board := by
    intro x y h
    have := (bit_index_lt x y b h).1
    rw [hsize]
    omega
  refine ⟨?_, ?_, ?_, ?_, ?_⟩
  · intro x y h
    obtain ⟨hlt, heq⟩ := bit_index_lt x y b h
    refine ⟨heq, ?_, ?_, hbyte x y h⟩
    · rw [← heq]; exact Int.natCast_nonneg _
    · rw [← heq]; exact hlt
  · intro x y x' y' h h' hne e
    obtain ⟨rfl, rfl⟩ := bit_index_inj x y x' y' b h h' e
    exact hne rfl
  · intro x y i hi
    cases h : pos_in_board x y b
    · simp [cell_state_traced, h] at hi
    · simp only [cell_state_traced, h, Bool.not_true, Bool.false_eq_true, if_false,
        List.mem_singleton] at hi
      rw [hi]
      exact hbyte x y h
  · intro x y i hi
    cases h : pos_in_board x y b
    · simp [change_cell_state_accesses, h] at hi
    · simp only [change_cell_state_accesses, h, Bool.not_true, Bool.false_eq_true, if_false,
        List.mem_singleton] at hi
      rw [hi]
      exact hbyte x y h
  · intro r h0 h1
    have hpos : 0 < b.rows * b.columns := mul_pos hr hc
    rw [mul_int, wrap_int_eq _ hpos.le hfit] at h1
    rw [hsize]
    unfold INT_MAX at hfit
    omega

theorem grid_access_in_bounds_witness :
    (∀ x y : Int, pos_in_board x y centre_board = true →
      (bit_index x y centre_board : Int) = y * centre_board.columns + x ∧
      0 ≤ y * centre_board.columns + x ∧
      y * centre_board.columns + x < centre_board.rows * centre_board.columns ∧
      ((bit_index x y centre_board / 8 : Nat) : Int) <
        board_byte_size 8 centre_board.rows centre_board.columns - 8) ∧
    (∀ x y x' y' : Int, pos_in_board x y centre_board = true →
      pos_in_board x' y' centre_board = true →
      (x, y) ≠ (x', y') → bit_index x y centre_board ≠ bit_index x' y' centre_board) ∧
    (∀ x y : Int, ∀ i ∈ (cell_state_traced x y centre_board).2,
      (i : Int) < board_byte_size 8 centre_board.rows centre_board.columns - 8) ∧
    (∀ x y : Int, ∀ i ∈ change_cell_state_accesses x y centre_board,
      (i : Int) < board_byte_size 8 centre_board.rows centre_board.columns - 8) ∧
    (∀ r : Int, 0 ≤ r → r < mul_int centre_board.rows centre_board.columns →
      (((r % 4294967296).toNat / 8 : Nat) : Int) <
        board_byte_size 8 centre_board.rows centre_board.columns - 8) :=
  grid_access_in_bounds 8 centre_board (by decide) (by decide) (by decide)

end Life
